import Mathlib

/-!
Verification of the stream-blockify buffering and block-emission core.

The development shallowly embeds the repository's TypeScript sources:

* `stream-blockify.ts` (Transform variant): a single reusable scratch buffer
  of `blockSize` bytes with a cursor `_position`; `_processChunk` copies the
  incoming bytes into the scratch buffer and emits a copy of it each time it
  fills, `_flush` emits the final partial block or pads it
  (`_applyPadding`).
* `default-buffer-manager.ts` (first snapshot in the file): a segment list
  with `totalLength` and `currentOffset`, carved into fixed-size chunks by
  `getChunks`/`createChunk`/`copyToChunk`, with `consolidateBuffers`,
  `getRemainingData` and `clear`.
* the Stream-based `StreamBlockify` orchestrator (third snapshot of
  `default-buffer-manager.ts`) and the Duplex orchestrator of
  `src/unnamed/part_015`, over the five state-manager flags.

Buffers are byte lists (`List Nat`; JS byte coercion is outside the claims
under study).  Where object identity matters a buffer carries an `id` tag:
`some n` for the n-th caller-supplied segment, `none` for a buffer freshly
allocated inside the library (`Buffer.alloc` / `Buffer.allocUnsafe` /
`Buffer.from`), since an allocation is never reference-equal to a
caller-supplied object.  Bytes of an unsafe allocation are modelled as zeros;
every reachable use overwrites them, which the invariants below make precise.
Thrown JS errors are `Except.error`, emitted events are accumulated lists.
-/

namespace StreamBlockify

/-- Bounded in-place copy, the model of Node's `target.write`-style
`src.copy(tgt, off)`: bytes of `src` land at offset `off` of `tgt`, the
target keeps its length and the copy truncates at the target's end. -/
def bufWrite (tgt : List Nat) (off : Nat) (src : List Nat) : List Nat :=
  (tgt.take off ++ src ++ tgt.drop (off + src.length)).take tgt.length

theorem bufWrite_nil (tgt : List Nat) (off : Nat) : bufWrite tgt off [] = tgt := by
  simp [bufWrite]

theorem length_bufWrite (tgt : List Nat) (off : Nat) (src : List Nat) :
    (bufWrite tgt off src).length = tgt.length := by
  simp only [bufWrite, List.length_take, List.length_append, List.length_drop]
  omega

theorem bufWrite_eq_of_le (tgt : List Nat) (off : Nat) (src : List Nat)
    (h : off + src.length ≤ tgt.length) (hoff : off ≤ tgt.length) :
    bufWrite tgt off src = tgt.take off ++ src ++ tgt.drop (off + src.length) := by
  have hlen : (tgt.take off ++ src ++ tgt.drop (off + src.length)).length = tgt.length := by
    simp only [List.length_append, List.length_take, List.length_drop]
    omega
  unfold bufWrite
  rw [← hlen, List.take_length]

theorem bufWrite_full (tgt src : List Nat) (h : src.length = tgt.length) :
    bufWrite tgt 0 src = src := by
  rw [bufWrite_eq_of_le tgt 0 src (by omega) (by omega)]
  simp [h]

theorem take_bufWrite (tgt : List Nat) (off : Nat) (src : List Nat)
    (h : off + src.length ≤ tgt.length) :
    (bufWrite tgt off src).take (off + src.length) = tgt.take off ++ src := by
  rw [bufWrite_eq_of_le tgt off src h (by omega)]
  rw [List.append_assoc, List.take_append_eq_append_take]
  have h1 : (tgt.take off).length = off := by
    rw [List.length_take]; omega
  rw [List.take_of_length_le (by rw [h1]; omega)]
  congr 1
  rw [h1]
  have h2 : off + src.length - off = src.length := by omega
  rw [h2, List.take_append_eq_append_take]
  rw [List.take_of_length_le (by omega : src.length ≤ src.length)]
  simp

theorem bufWrite_append (tgt : List Nat) (off : Nat) (a b : List Nat)
    (h : off + a.length + b.length ≤ tgt.length) :
    bufWrite (bufWrite tgt off a) (off + a.length) b = bufWrite tgt off (a ++ b) := by
  have hoff : off ≤ tgt.length := by omega
  have h1 : off + a.length ≤ tgt.length := by omega
  have hw : bufWrite tgt off a = tgt.take off ++ a ++ tgt.drop (off + a.length) :=
    bufWrite_eq_of_le tgt off a h1 hoff
  have hwl : (bufWrite tgt off a).length = tgt.length := length_bufWrite tgt off a
  have htk : (bufWrite tgt off a).take (off + a.length) = tgt.take off ++ a :=
    take_bufWrite tgt off a h1
  have hdp : (bufWrite tgt off a).drop (off + a.length + b.length)
      = tgt.drop (off + (a ++ b).length) := by
    rw [hw, List.append_assoc, List.drop_append_eq_append_drop]
    have h2 : (tgt.take off).length = off := by rw [List.length_take]; omega
    rw [List.drop_eq_nil_of_le (by rw [h2]; omega)]
    rw [List.nil_append, h2, List.drop_append_eq_append_drop]
    rw [List.drop_eq_nil_of_le (by omega : a.length ≤ off + a.length + b.length - off)]
    rw [List.nil_append, List.drop_drop]
    congr 1
    simp only [List.length_append]
    omega
  rw [bufWrite_eq_of_le _ (off + a.length) b (by rw [hwl]; omega) (by rw [hwl]; omega)]
  rw [bufWrite_eq_of_le tgt off (a ++ b) (by simp only [List.length_append]; omega) hoff]
  rw [htk, hdp]
  simp [List.append_assoc]

/-! ## The Transform-based StreamBlockify (src/src/stream-blockify.ts)

State of the class between calls: the scratch buffer `_buffer` (a list of
exactly `_blockSize` bytes) and the cursor `_position`.  Emitted blocks are
the byte values handed to `_emitBlock`, which copies them
(`Buffer.from(block)`) before pushing; the pure round-trip analysis works on
the byte values, aliasing is treated separately in the heap model below. -/

/-- Construction options of the Transform variant that the buffering logic
reads: `blockSize`, `emitPartial` and `padding` (a byte value on the left, a
byte-pattern buffer on the right). -/
structure TOptions where
  blockSize : Nat
  emitPartial : Bool
  padding : Nat ⊕ List Nat
deriving DecidableEq

/-- The Transform variant's instance state: options plus the scratch buffer
`_buffer` and cursor `_position`. -/
structure TState where
  opts : TOptions
  buffer : List Nat
  position : Nat
deriving DecidableEq

/-- The while-loop of `_processChunk`: copy
`min (blockSize - position) (remaining input)` bytes into the scratch buffer,
emit the full buffer when the cursor reaches `blockSize` and reset the
cursor.  `fuel` bounds the iteration count; `input.length` iterations always
suffice because each iteration consumes at least one byte (the cursor stays
strictly below `blockSize` between iterations once `blockSize > 0`). -/
def processChunkGo (blockSize : Nat) (buffer : List Nat) (position : Nat)
    (input : List Nat) (fuel : Nat) : List Nat × Nat × List (List Nat) :=
  match fuel with
  | 0 => (buffer, position, [])
  | fuel + 1 =>
    if input.isEmpty then (buffer, position, [])
    else
      let bytesToCopy := min (blockSize - position) input.length
      let buffer' := bufWrite buffer position (input.take bytesToCopy)
      let position' := position + bytesToCopy
      if position' = blockSize then
        let r := processChunkGo blockSize buffer' 0 (input.drop bytesToCopy) fuel
        (r.1, r.2.1, buffer' :: r.2.2)
      else
        processChunkGo blockSize buffer' position' (input.drop bytesToCopy) fuel

/-- `_processChunk` (also the body of `_transform`): returns the new state and
the byte values of the blocks emitted, in emission order. -/
def processChunk (s : TState) (input : List Nat) : TState × List (List Nat) :=
  let r := processChunkGo s.opts.blockSize s.buffer s.position input input.length
  (⟨s.opts, r.1, r.2.1⟩, r.2.2)

/-- The bytes `_applyPadding` writes to fill `n` positions: a repeated byte
value, or the pattern applied cyclically with `paddingOffset` starting at 0
at the first unfilled position and advancing modulo the pattern length.  An
out-of-range read of a JS buffer yields `undefined`, which stores as byte 0;
`getD _ 0` models that for an empty pattern. -/
def padBytes (padding : Nat ⊕ List Nat) (n : Nat) : List Nat :=
  match padding with
  | .inl v => List.replicate n v
  | .inr pattern => (List.range n).map (fun i => pattern.getD (i % pattern.length) 0)

/-- `_applyPadding`: fill the scratch buffer from `_position` up to
`_blockSize` from the padding source. -/
def applyPadding (blockSize position : Nat) (buffer : List Nat)
    (padding : Nat ⊕ List Nat) : List Nat :=
  bufWrite buffer position (padBytes padding (blockSize - position))

/-- `_flush`: nothing when the cursor is at 0, otherwise the partial block
`_buffer.subarray(0, _position)` when `emitPartial` is on, otherwise the
padded full scratch buffer. -/
def flushT (s : TState) : List (List Nat) :=
  if s.position = 0 then []
  else if s.opts.emitPartial then [s.buffer.take s.position]
  else [applyPadding s.opts.blockSize s.position s.buffer s.opts.padding]

/-- A sequence of `_transform` calls: total emitted blocks in order. -/
def runWrites (s : TState) : List (List Nat) → TState × List (List Nat)
  | [] => (s, [])
  | w :: ws =>
    let r := processChunk s w
    let r' := runWrites r.1 ws
    (r'.1, r.2 ++ r'.2)

example :
    (runWrites ⟨⟨4, true, .inl 0⟩, [0, 0, 0, 0], 0⟩
      [[48, 49, 50, 51, 52, 53, 54, 55, 56, 57]]).2
    = [[48, 49, 50, 51], [52, 53, 54, 55]] := by decide

example :
    flushT (runWrites ⟨⟨4, true, .inl 0⟩, [0, 0, 0, 0], 0⟩
      [[48, 49, 50, 51, 52, 53, 54, 55, 56, 57]]).1 = [[56, 57]] := by decide

example :
    flushT (runWrites ⟨⟨4, false, .inr [88, 89, 90]⟩, [0, 0, 0, 0], 0⟩
      [[48, 49, 50, 51, 52, 53, 54, 55, 56, 57]]).1 = [[56, 57, 88, 89]] := by decide

theorem length_padBytes (padding : Nat ⊕ List Nat) (n : Nat) :
    (padBytes padding n).length = n := by
  cases padding <;> simp [padBytes]

theorem processChunkGo_nil (blockSize : Nat) (buffer : List Nat) (position fuel : Nat) :
    processChunkGo blockSize buffer position [] fuel = (buffer, position, []) := by
  cases fuel <;> simp [processChunkGo]

/-- Loop specification of `_processChunk`: starting with a full-length scratch
buffer and a cursor strictly inside it, the emitted blocks are all of size
`blockSize`, concatenating them and the live prefix of the scratch buffer
recovers the old live prefix followed by the input (the carry law), and the
final cursor is the total length modulo `blockSize`. -/
theorem processChunkGo_spec (fuel : Nat) (blockSize : Nat) :
    ∀ (buffer : List Nat) (position : Nat) (input : List Nat),
    0 < blockSize → buffer.length = blockSize → position < blockSize →
    input.length ≤ fuel →
    ((processChunkGo blockSize buffer position input fuel).1.length = blockSize ∧
     (processChunkGo blockSize buffer position input fuel).2.1 < blockSize ∧
     (∀ blk ∈ (processChunkGo blockSize buffer position input fuel).2.2,
        blk.length = blockSize) ∧
     (processChunkGo blockSize buffer position input fuel).2.2.flatten
       ++ (processChunkGo blockSize buffer position input fuel).1.take
            (processChunkGo blockSize buffer position input fuel).2.1
       = buffer.take position ++ input ∧
     (processChunkGo blockSize buffer position input fuel).2.1
       = (position + input.length) % blockSize) := by
  induction fuel with
  | zero =>
    intro buffer position input hbs hbuf hpos hfuel
    have : input = [] := List.eq_nil_of_length_eq_zero (by omega)
    subst this
    simp [processChunkGo, Nat.mod_eq_of_lt hpos, hbuf, hpos]
  | succ fuel ih =>
    intro buffer position input hbs hbuf hpos hfuel
    by_cases hin : input = []
    · subst hin
      simp [processChunkGo, Nat.mod_eq_of_lt hpos, hbuf, hpos]
    · have hlen1 : 1 ≤ input.length := List.length_pos.mpr hin
      set k := min (blockSize - position) input.length with hk
      have hk1 : 1 ≤ k := by omega
      have hk_le_len : k ≤ input.length := by omega
      have hk_le : position + k ≤ blockSize := by omega
      have htklen : (input.take k).length = k := by
        rw [List.length_take]; omega
      set buffer' := bufWrite buffer position (input.take k) with hbdef
      have hb' : buffer'.length = blockSize := by
        rw [hbdef, length_bufWrite, hbuf]
      have htake : buffer'.take (position + k) = buffer.take position ++ input.take k := by
        have h := take_bufWrite buffer position (input.take k) (by rw [htklen, hbuf]; omega)
        rw [htklen] at h
        exact h
      have hunfold : processChunkGo blockSize buffer position input (fuel + 1)
          = if position + k = blockSize then
              ((processChunkGo blockSize buffer' 0 (input.drop k) fuel).1,
               (processChunkGo blockSize buffer' 0 (input.drop k) fuel).2.1,
               buffer' :: (processChunkGo blockSize buffer' 0 (input.drop k) fuel).2.2)
            else processChunkGo blockSize buffer' (position + k) (input.drop k) fuel := by
        rw [processChunkGo]
        rw [if_neg (by simp [hin])]
      by_cases heq : position + k = blockSize
      · rw [hunfold, if_pos heq]
        have hdrop : (input.drop k).length ≤ fuel := by
          rw [List.length_drop]; omega
        obtain ⟨ih1, ih2, ih3, ih4, ih5⟩ := ih buffer' 0 (input.drop k) hbs hb' hbs hdrop
        refine ⟨ih1, ih2, ?_, ?_, ?_⟩
        · intro blk hblk
          rcases List.mem_cons.mp hblk with h | h
          · rw [h, hb']
          · exact ih3 blk h
        · have hfull : buffer' = buffer.take position ++ input.take k := by
            have : buffer'.take blockSize = buffer' := by
              rw [← hb', List.take_length]
            rw [← this, ← heq, htake]
          simp only [List.flatten_cons, List.append_assoc]
          rw [List.take_zero] at ih4
          simp only [List.nil_append] at ih4
          rw [ih4, hfull]
          rw [List.append_assoc, List.take_append_drop]
        · rw [ih5, List.length_drop, Nat.zero_add]
          rw [show position + input.length = blockSize + (input.length - k) by omega]
          rw [Nat.add_mod_left]
      · rw [hunfold, if_neg heq]
        have hklen : k = input.length := by omega
        have hposk : position + k < blockSize := by omega
        have hdropnil : input.drop k = [] := by
          apply List.drop_eq_nil_of_le
          omega
        rw [hdropnil, processChunkGo_nil]
        refine ⟨hb', hposk, by simp, ?_, ?_⟩
        · simp only [List.flatten_nil, List.nil_append]
          rw [htake]
          congr 1
          rw [hklen, List.take_length]
        · simp only []
          rw [Nat.mod_eq_of_lt (by omega : position + input.length < blockSize)]
          omega

/-- `_processChunk` specification at the `TState` level. -/
theorem processChunk_spec (s : TState) (input : List Nat)
    (hbs : 0 < s.opts.blockSize) (hbuf : s.buffer.length = s.opts.blockSize)
    (hpos : s.position < s.opts.blockSize) :
    ((processChunk s input).1.opts = s.opts ∧
     (processChunk s input).1.buffer.length = s.opts.blockSize ∧
     (processChunk s input).1.position < s.opts.blockSize ∧
     (∀ blk ∈ (processChunk s input).2, blk.length = s.opts.blockSize) ∧
     (processChunk s input).2.flatten
       ++ (processChunk s input).1.buffer.take (processChunk s input).1.position
       = s.buffer.take s.position ++ input ∧
     (processChunk s input).1.position
       = (s.position + input.length) % s.opts.blockSize) := by
  obtain ⟨h1, h2, h3, h4, h5⟩ :=
    processChunkGo_spec input.length s.opts.blockSize s.buffer s.position input
      hbs hbuf hpos le_rfl
  exact ⟨rfl, h1, h2, h3, h4, h5⟩

/-- A whole run of `_transform` calls keeps the scratch-buffer shape, obeys
the carry law against the concatenated input, and leaves the cursor at the
total written length modulo the block size. -/
theorem runWrites_spec (ws : List (List Nat)) : ∀ (s : TState),
    0 < s.opts.blockSize → s.buffer.length = s.opts.blockSize →
    s.position < s.opts.blockSize →
    ((runWrites s ws).1.opts = s.opts ∧
     (runWrites s ws).1.buffer.length = s.opts.blockSize ∧
     (runWrites s ws).1.position < s.opts.blockSize ∧
     (∀ blk ∈ (runWrites s ws).2, blk.length = s.opts.blockSize) ∧
     (runWrites s ws).2.flatten
       ++ (runWrites s ws).1.buffer.take (runWrites s ws).1.position
       = s.buffer.take s.position ++ ws.flatten ∧
     (runWrites s ws).1.position
       = (s.position + ws.flatten.length) % s.opts.blockSize) := by
  induction ws with
  | nil =>
    intro s hbs hbuf hpos
    simp [runWrites, Nat.mod_eq_of_lt hpos, hbuf, hpos]
  | cons w ws ih =>
    intro s hbs hbuf hpos
    obtain ⟨p1, p2, p3, p4, p5, p6⟩ := processChunk_spec s w hbs hbuf hpos
    obtain ⟨q1, q2, q3, q4, q5, q6⟩ := ih (processChunk s w).1
      (p1 ▸ hbs) (p1 ▸ p2) (p1 ▸ p3)
    rw [p1] at q1 q2 q3 q4 q6
    refine ⟨?_, ?_, ?_, ?_, ?_, ?_⟩
    · show (runWrites (processChunk s w).1 ws).1.opts = s.opts
      rw [q1]
    · exact q2
    · exact q3
    · intro blk hblk
      show blk.length = s.opts.blockSize
      rcases List.mem_append.mp hblk with h | h
      · exact p4 blk h
      · exact q4 blk h
    · have hsplit : (runWrites s (w :: ws)).2
          = (processChunk s w).2 ++ (runWrites (processChunk s w).1 ws).2 := rfl
      have hfst : (runWrites s (w :: ws)).1 = (runWrites (processChunk s w).1 ws).1 := rfl
      rw [hsplit, hfst, List.flatten_append, List.append_assoc, q5, ← List.append_assoc, p5]
      simp [List.append_assoc]
    · show (runWrites (processChunk s w).1 ws).1.position = _
      rw [q6, p6, Nat.mod_add_mod]
      simp [List.flatten_cons, Nat.add_assoc]

/-- C1.  Round-trip law of the Transform-based StreamBlockify: for every
finite sequence of written byte segments, the concatenation of every emitted
block (full blocks in order, then the final partial block when
`emitPartial` is on) is exactly the concatenation of the written bytes; when
`emitPartial` is off and the total length is not a multiple of the block
size, it is the written bytes followed by the padding bytes that complete
the last block (and when the length is a multiple, nothing is appended). -/
theorem c1_roundtrip (opts : TOptions) (b0 : List Nat) (ws : List (List Nat))
    (hb : b0.length = opts.blockSize) (hbs : 0 < opts.blockSize) :
    ((runWrites ⟨opts, b0, 0⟩ ws).2 ++ flushT (runWrites ⟨opts, b0, 0⟩ ws).1).flatten
      = ws.flatten ++
        (if opts.emitPartial = true ∨ ws.flatten.length % opts.blockSize = 0 then []
         else padBytes opts.padding
                (opts.blockSize - ws.flatten.length % opts.blockSize)) := by
  obtain ⟨h1, h2u, h3u, h4u, h5u, h6u⟩ := runWrites_spec ws ⟨opts, b0, 0⟩ hbs hb hbs
  set r := runWrites ⟨opts, b0, 0⟩ ws with hr
  have h2 : r.1.buffer.length = opts.blockSize := h2u
  have h3 : r.1.position < opts.blockSize := h3u
  have h5 : r.2.flatten ++ r.1.buffer.take r.1.position = b0.take 0 ++ ws.flatten := h5u
  have h6 : r.1.position = (0 + ws.flatten.length) % opts.blockSize := h6u
  rw [Nat.zero_add] at h6
  rw [List.take_zero, List.nil_append] at h5
  rw [List.flatten_append]
  by_cases hpos : r.1.position = 0
  · have hflush : flushT r.1 = [] := by
      rw [flushT, if_pos hpos]
    rw [hflush]
    have hj : r.2.flatten = ws.flatten := by
      rw [← h5, hpos, List.take_zero, List.append_nil]
    rw [hj, if_pos (Or.inr (by rw [← h6, hpos]))]
    simp
  · have hmod : ws.flatten.length % opts.blockSize ≠ 0 := by
      rw [← h6]; exact hpos
    by_cases hep : opts.emitPartial = true
    · have hflush : flushT r.1 = [r.1.buffer.take r.1.position] := by
        simp only [flushT, h1, if_neg hpos, if_pos hep]
      rw [hflush, if_pos (Or.inl hep)]
      simpa using h5
    · have hflush : flushT r.1
          = [applyPadding opts.blockSize r.1.position r.1.buffer opts.padding] := by
        simp only [flushT, h1, if_neg hpos, if_neg hep]
      have hpad : applyPadding opts.blockSize r.1.position r.1.buffer opts.padding
          = r.1.buffer.take r.1.position
              ++ padBytes opts.padding (opts.blockSize - r.1.position) := by
        rw [applyPadding,
          bufWrite_eq_of_le _ _ _ (by rw [length_padBytes, h2]; omega)
            (by rw [h2]; omega),
          length_padBytes,
          show r.1.position + (opts.blockSize - r.1.position) = opts.blockSize by omega,
          List.drop_eq_nil_of_le (le_of_eq h2), List.append_nil]
      rw [hflush, hpad, if_neg (by
        intro hor
        rcases hor with h | h
        · exact hep h
        · exact hmod h)]
      simp only [List.flatten_cons, List.flatten_nil, List.append_nil]
      rw [← List.append_assoc, h5, h6]

/-- Witness for c1_roundtrip: block size 4, partial emission off, cyclic
padding pattern XYZ, input the 10 bytes 0..9; the emitted blocks concatenate
to the input followed by the two padding bytes X, Y. -/
theorem c1_roundtrip_witness :
    ([0, 0, 0, 0] : List Nat).length = (4 : Nat) ∧ (0 : Nat) < 4 ∧
    ((runWrites ⟨⟨4, false, Sum.inr [88, 89, 90]⟩, [0, 0, 0, 0], 0⟩
        [[48, 49, 50, 51, 52, 53, 54, 55, 56, 57]]).2
      ++ flushT (runWrites ⟨⟨4, false, Sum.inr [88, 89, 90]⟩, [0, 0, 0, 0], 0⟩
        [[48, 49, 50, 51, 52, 53, 54, 55, 56, 57]]).1).flatten
      = [48, 49, 50, 51, 52, 53, 54, 55, 56, 57, 88, 89] :=
  ⟨rfl, by decide,
    (c1_roundtrip ⟨4, false, Sum.inr [88, 89, 90]⟩ [0, 0, 0, 0]
        [[48, 49, 50, 51, 52, 53, 54, 55, 56, 57]] rfl (by decide)).trans (by decide)⟩

/-- C6.  Cyclic padding: with partial emission disabled and 1..N-1 bytes in
the final incomplete block, `_flush` emits one normal full-size block, equal
to the live bytes followed by the padding bytes, and for a byte-pattern
buffer the i-th padded byte (i counted from 0 at the first unfilled
position) is the pattern byte at index i mod pattern length, so the pattern
restarts at index 0 at the first padded byte. -/
theorem c6_cyclic_padding (pattern : List Nat) (blockSize position : Nat)
    (buffer : List Nat) (hp : pattern ≠ []) (hbuf : buffer.length = blockSize)
    (hpos0 : 0 < position) (hpos : position < blockSize) :
    flushT ⟨⟨blockSize, false, .inr pattern⟩, buffer, position⟩
      = [buffer.take position ++ padBytes (.inr pattern) (blockSize - position)] ∧
    (buffer.take position ++ padBytes (.inr pattern) (blockSize - position)).length
      = blockSize ∧
    ∀ i < blockSize - position,
      (padBytes (Sum.inr pattern) (blockSize - position)).getD i 0
        = pattern.getD (i % pattern.length) 0 := by
  refine ⟨?_, ?_, ?_⟩
  · simp only [flushT]
    rw [if_neg (by omega), if_neg (by simp)]
    congr 1
    rw [applyPadding,
      bufWrite_eq_of_le _ _ _ (by rw [length_padBytes, hbuf]; omega)
        (by rw [hbuf]; omega),
      length_padBytes, show position + (blockSize - position) = blockSize by omega,
      List.drop_eq_nil_of_le (le_of_eq hbuf), List.append_nil]
  · rw [List.length_append, List.length_take, length_padBytes, hbuf]
    omega
  · intro i hi
    simp only [padBytes]
    rw [List.getD_eq_getElem?_getD, List.getElem?_map, List.getElem?_range hi]
    rfl

/-- Witness for c6_cyclic_padding at the spec's concrete scenario: block
size 4, pattern XYZ, after writing the bytes of the string 0123456789 the
scratch buffer is 8967 with the cursor at 2, and the flushed final block is
89XY. -/
theorem c6_cyclic_padding_witness :
    ([88, 89, 90] : List Nat) ≠ [] ∧
    ([56, 57, 54, 55] : List Nat).length = (4 : Nat) ∧ (0 : Nat) < 2 ∧ (2 : Nat) < 4 ∧
    flushT (runWrites ⟨⟨4, false, Sum.inr [88, 89, 90]⟩, [0, 0, 0, 0], 0⟩
        [[48, 49, 50, 51, 52, 53, 54, 55, 56, 57]]).1 = [[56, 57, 88, 89]] :=
  ⟨by decide, rfl, by decide, by decide, by
    have h := (c6_cyclic_padding [88, 89, 90] 4 2 [56, 57, 54, 55]
      (by decide) rfl (by decide) (by decide)).1
    exact (show flushT (runWrites ⟨⟨4, false, Sum.inr [88, 89, 90]⟩, [0, 0, 0, 0], 0⟩
        [[48, 49, 50, 51, 52, 53, 54, 55, 56, 57]]).1
      = flushT ⟨⟨4, false, Sum.inr [88, 89, 90]⟩, [56, 57, 54, 55], 2⟩ from rfl).trans
      (h.trans (by decide))⟩

/-! ## The DefaultBufferManager (src/src/default-buffer-manager.ts, first
snapshot), with the default constructor (no `poolSize`, so the pool path of
`consolidateBuffers` is never taken).

A `TaggedBuf` is a Node `Buffer` value together with its identity: `some n`
marks the n-th buffer the caller passed to `addBuffer`, `none` a buffer the
manager allocated itself, which is never reference-equal to a caller's
buffer. -/

/-- A byte buffer with its object identity. -/
structure TaggedBuf where
  id : Option Nat
  bytes : List Nat
deriving DecidableEq

/-- The manager's instance fields: `buffers`, `totalLength` and
`currentOffset`. -/
structure BMState where
  buffers : List TaggedBuf
  totalLength : Nat
  currentOffset : Nat
deriving DecidableEq

/-- A freshly constructed DefaultBufferManager. -/
def bmInit : BMState := ⟨[], 0, 0⟩

/-- MAX_BUFFER_COUNT of the source. -/
def MAX_BUFFER_COUNT : Nat := 1000

/-- The unconsumed bytes the manager holds: the head buffer past
`currentOffset`, then the remaining buffers whole. -/
def unconsumed (s : BMState) : List Nat :=
  match s.buffers with
  | [] => []
  | b :: rest => b.bytes.drop s.currentOffset ++ (rest.map TaggedBuf.bytes).flatten

deriving instance DecidableEq for Except

/-- JS errors the embedded code can throw or emit (errors.ts plus the plain
`Error` the Stream variant throws). -/
inductive JsError where
  | bufferOperation (operation details : String)
  | writeAfterEnd
  | validation (field details : String)
  | blockify (message : String)
  | js (message : String)
deriving DecidableEq

/-- The `.message` property of a JsError, after errors.ts formatting. -/
def JsError.message : JsError → String
  | .bufferOperation op details => "Buffer operation " ++ op ++ " failed: " ++ details
  | .writeAfterEnd => "Cannot write after end has been called"
  | .validation field details => "Validation failed for " ++ field ++ ": " ++ details
  | .blockify m => m
  | .js m => m

/-- `consolidateBuffers`: replace several buffers by one freshly allocated
buffer of `totalLength` bytes filled by copying the unconsumed bytes to the
front (`Buffer.allocUnsafe` bytes modelled as zeros; under the store
invariant the unconsumed bytes have exactly length `totalLength`, so none of
the zeros survive), and reset the offset. -/
def consolidateBuffers (s : BMState) : BMState :=
  if s.buffers.length ≤ 1 then s
  else
    { buffers := [⟨none, (unconsumed s ++ List.replicate s.totalLength 0).take s.totalLength⟩]
      totalLength := s.totalLength
      currentOffset := 0 }

/-- `addBuffer`: skip empty buffers, append, grow `totalLength`, consolidate
past MAX_BUFFER_COUNT. -/
def addBuffer (s : BMState) (b : TaggedBuf) : BMState :=
  if b.bytes.length = 0 then s
  else
    let s' : BMState :=
      { s with buffers := s.buffers ++ [b], totalLength := s.totalLength + b.bytes.length }
    if MAX_BUFFER_COUNT < s'.buffers.length then consolidateBuffers s' else s'

/-- `copyToChunk`: copy `min(available in head, still needed)` bytes of the
head buffer into the chunk, advance `currentOffset`, evict the head once
fully consumed.  Returns `none` when there is no current buffer. -/
def copyToChunk (s : BMState) (chunk : List Nat) (chunkOffset remainingSize : Nat) :
    Option (Nat × List Nat × BMState) :=
  match s.buffers with
  | [] => none
  | cur :: rest =>
    let availableLength := cur.bytes.length - s.currentOffset
    let copyLength := min availableLength remainingSize
    let chunk' := bufWrite chunk chunkOffset ((cur.bytes.drop s.currentOffset).take copyLength)
    let newOffset := s.currentOffset + copyLength
    if cur.bytes.length ≤ newOffset then
      some (copyLength, chunk', { s with buffers := rest, currentOffset := 0 })
    else
      some (copyLength, chunk', { s with currentOffset := newOffset })

/-- The while-loop of `createChunk`: run `copyToChunk` until the chunk is
full or no buffers remain.  Each iteration either consumes input bytes or
evicts a buffer, so `remainingSize + buffers.length` iterations suffice. -/
def createChunkGo (s : BMState) (chunk : List Nat) (chunkOffset remainingSize fuel : Nat) :
    List Nat × BMState :=
  match fuel with
  | 0 => (chunk, s)
  | fuel + 1 =>
    if remainingSize = 0 then (chunk, s)
    else if s.buffers.isEmpty then (chunk, s)
    else
      match copyToChunk s chunk chunkOffset remainingSize with
      | none => (chunk, s)
      | some (copied, chunk', s') =>
        createChunkGo s' chunk' (chunkOffset + copied) (remainingSize - copied) fuel

/-- `createChunk`: allocate a fresh `size`-byte chunk (`Buffer.allocUnsafe`,
bytes modelled as zeros and fully overwritten under the store invariant),
fill it from the head of the store, and decrement `totalLength` by `size`.
The chunk is tagged `none`: it is a new allocation, never one of the stored
buffers. -/
def createChunk (s : BMState) (size : Nat) : Option TaggedBuf × BMState :=
  if s.totalLength < size then (none, s)
  else
    let r := createChunkGo s (List.replicate size 0) 0 size (size + s.buffers.length)
    (some ⟨none, r.1⟩, { r.2 with totalLength := r.2.totalLength - size })

/-- The while-loop of `getChunks`: carve chunks while `totalLength ≥ size`.
Each pass removes `size ≥ 1` from `totalLength`, so `totalLength + 1`
iterations suffice. -/
def getChunksGo (s : BMState) (size fuel : Nat) : List TaggedBuf × BMState :=
  match fuel with
  | 0 => ([], s)
  | fuel + 1 =>
    if size ≤ s.totalLength then
      match createChunk s size with
      | (none, s') => ([], s')
      | (some c, s') =>
        let r := getChunksGo s' size fuel
        (c :: r.1, r.2)
    else ([], s)

/-- `getChunks` of the first DefaultBufferManager snapshot: throws a
BufferOperationError for `chunkSize <= 0`, returns no chunks when the store
is empty (`isValidChunkOperation`), otherwise loops `createChunk`. -/
def getChunks (s : BMState) (chunkSize : Int) : Except JsError (List TaggedBuf × BMState) :=
  if chunkSize ≤ 0 then
    .error (.bufferOperation "getChunks" "Invalid chunk size. Must be greater than 0.")
  else if s.totalLength = 0 then .ok ([], s)
  else .ok (getChunksGo s chunkSize.toNat (s.totalLength + 1))

/-- `getSingleBufferRemaining`: the head buffer itself when no offset was
consumed (the same object), otherwise its `subarray` view past the offset
(a new wrapper object, hence tag `none`). -/
def getSingleBufferRemaining (s : BMState) : TaggedBuf :=
  let b := s.buffers.headD ⟨none, []⟩
  if s.currentOffset = 0 then b else ⟨none, b.bytes.drop s.currentOffset⟩

/-- `getRemainingData`: `none` when empty; with a single stored buffer, its
unconsumed part (without copying when the offset is 0); otherwise
consolidate first (mutating the store) and return the consolidated
buffer. -/
def getRemainingData (s : BMState) : Option TaggedBuf × BMState :=
  if s.totalLength = 0 then (none, s)
  else if s.buffers.length = 1 then (some (getSingleBufferRemaining s), s)
  else
    let s' := consolidateBuffers s
    (some (getSingleBufferRemaining s'), s')

/-- `clear`: drop all buffers and reset both counters. -/
def clear (_s : BMState) : BMState := ⟨[], 0, 0⟩

example :
    getChunks (addBuffer (addBuffer bmInit ⟨some 0, [1, 2, 3, 4, 5]⟩) ⟨some 1, [6, 7, 8, 9, 10]⟩) 4
      = .ok ([⟨none, [1, 2, 3, 4]⟩, ⟨none, [5, 6, 7, 8]⟩],
             ⟨[⟨some 1, [6, 7, 8, 9, 10]⟩], 2, 3⟩) := by decide

example :
    getRemainingData (addBuffer (addBuffer bmInit ⟨some 0, [1, 2]⟩) ⟨some 1, [3]⟩)
      = (some ⟨none, [1, 2, 3]⟩, ⟨[⟨none, [1, 2, 3]⟩], 3, 0⟩) := by decide

example : getChunks bmInit 0 = .error
    (.bufferOperation "getChunks" "Invalid chunk size. Must be greater than 0.") := by decide

/-- Length of the head buffer (0 when there is none). -/
def headLen (s : BMState) : Nat := (s.buffers.headD ⟨none, []⟩).bytes.length

/-- Shape invariant of the segment list: no empty segment is retained, and
the consumed offset points strictly inside the head segment (it is 0 when
the store is empty) — a fully consumed segment is always evicted. -/
def segShape (s : BMState) : Prop :=
  (∀ b ∈ s.buffers, 0 < b.bytes.length) ∧
  (s.buffers.isEmpty = true → s.currentOffset = 0) ∧
  (s.buffers.isEmpty = false → s.currentOffset < headLen s)

instance (s : BMState) : Decidable (segShape s) := by
  unfold segShape headLen
  infer_instance

/-- The Byte Store invariant of the spec: the shape invariant together with
`totalLength` equalling the number of unconsumed bytes across all retained
segments. -/
def bmInv (s : BMState) : Prop :=
  segShape s ∧ s.totalLength = (unconsumed s).length

instance (s : BMState) : Decidable (bmInv s) := by
  unfold bmInv
  infer_instance

theorem segShape_nonempty_head (s : BMState) (hs : segShape s) (cur : TaggedBuf)
    (rest : List TaggedBuf) (hb : s.buffers = cur :: rest) :
    s.currentOffset < cur.bytes.length := by
  obtain ⟨_, _, h3⟩ := hs
  have := h3 (by rw [hb]; rfl)
  rwa [headLen, hb] at this

theorem unconsumed_cons (s : BMState) (cur : TaggedBuf) (rest : List TaggedBuf)
    (hb : s.buffers = cur :: rest) :
    unconsumed s = cur.bytes.drop s.currentOffset ++ (rest.map TaggedBuf.bytes).flatten := by
  rw [unconsumed, hb]

/-- Specification of one `copyToChunk` step under the shape invariant: it
copies the next `min(available, remaining)` bytes of the unconsumed stream
into the chunk, consumes them from the store, preserves the shape, the
total-length field and byte order, and always makes progress. -/
theorem copyToChunk_spec (s : BMState) (chunk : List Nat) (chunkOffset remainingSize : Nat)
    (hs : segShape s) (hne : s.buffers ≠ []) (hr : 1 ≤ remainingSize) :
    ∃ copied s',
      copyToChunk s chunk chunkOffset remainingSize
        = some (copied, bufWrite chunk chunkOffset ((unconsumed s).take copied), s') ∧
      1 ≤ copied ∧ copied ≤ remainingSize ∧ copied ≤ (unconsumed s).length ∧
      segShape s' ∧ unconsumed s' = (unconsumed s).drop copied ∧
      s'.totalLength = s.totalLength ∧ s'.buffers.length ≤ s.buffers.length := by
  obtain ⟨cur, rest, hb⟩ := List.exists_cons_of_ne_nil hne
  have hco : s.currentOffset < cur.bytes.length := segShape_nonempty_head s hs cur rest hb
  have hallpos := hs.1
  have hdlen : (cur.bytes.drop s.currentOffset).length
      = cur.bytes.length - s.currentOffset := List.length_drop _ _
  have huncons := unconsumed_cons s cur rest hb
  have hlenb : s.buffers.length = rest.length + 1 := by rw [hb]; rfl
  have htake : (cur.bytes.drop s.currentOffset).take
        (min (cur.bytes.length - s.currentOffset) remainingSize)
      = (unconsumed s).take (min (cur.bytes.length - s.currentOffset) remainingSize) := by
    rw [huncons, List.take_append_of_le_length (by omega)]
  have hulen : min (cur.bytes.length - s.currentOffset) remainingSize
      ≤ (unconsumed s).length := by
    rw [huncons, List.length_append]
    omega
  have hstep : copyToChunk s chunk chunkOffset remainingSize
      = if cur.bytes.length
            ≤ s.currentOffset + min (cur.bytes.length - s.currentOffset) remainingSize then
          some (min (cur.bytes.length - s.currentOffset) remainingSize,
            bufWrite chunk chunkOffset ((cur.bytes.drop s.currentOffset).take
              (min (cur.bytes.length - s.currentOffset) remainingSize)),
            { s with buffers := rest, currentOffset := 0 })
        else
          some (min (cur.bytes.length - s.currentOffset) remainingSize,
            bufWrite chunk chunkOffset ((cur.bytes.drop s.currentOffset).take
              (min (cur.bytes.length - s.currentOffset) remainingSize)),
            { s with currentOffset := s.currentOffset
                + min (cur.bytes.length - s.currentOffset) remainingSize }) := by
    rw [copyToChunk, hb]
  rw [htake] at hstep
  refine ⟨min (cur.bytes.length - s.currentOffset) remainingSize, ?_⟩
  by_cases hev : cur.bytes.length
      ≤ s.currentOffset + min (cur.bytes.length - s.currentOffset) remainingSize
  · rw [if_pos hev] at hstep
    refine ⟨{ s with buffers := rest, currentOffset := 0 }, hstep, by omega, by omega,
      hulen, ?_, ?_, rfl, by rw [hlenb]; simp⟩
    · refine ⟨fun b hbmem => hallpos b (by rw [hb]; exact List.mem_cons_of_mem cur hbmem),
        fun _ => rfl, fun hrne => ?_⟩
      cases rest with
      | nil => simp at hrne
      | cons r rs =>
        have : 0 < r.bytes.length := hallpos r (by rw [hb]; simp)
        simpa [headLen] using this
    · have hu' : unconsumed { s with buffers := rest, currentOffset := 0 }
          = (rest.map TaggedBuf.bytes).flatten := by
        cases rest <;> rfl
      rw [hu', huncons]
      rw [show min (cur.bytes.length - s.currentOffset) remainingSize
        = (cur.bytes.drop s.currentOffset).length by omega]
      rw [List.drop_left]
  · rw [if_neg hev] at hstep
    refine ⟨{ s with currentOffset := s.currentOffset + min (cur.bytes.length - s.currentOffset) remainingSize }, hstep, by omega, by omega, hulen, ?_, ?_, rfl, le_rfl⟩
    · refine ⟨fun b hbmem => hallpos b hbmem, fun hemp => ?_, fun _ => ?_⟩
      · rw [show (BMState.mk s.buffers s.totalLength (s.currentOffset + min (cur.bytes.length - s.currentOffset) remainingSize)).buffers = s.buffers from rfl, hb] at hemp
        simp at hemp
      · have hhd : headLen (BMState.mk s.buffers s.totalLength (s.currentOffset + min (cur.bytes.length - s.currentOffset) remainingSize)) = cur.bytes.length := by
          rw [headLen, show (BMState.mk s.buffers s.totalLength (s.currentOffset + min (cur.bytes.length - s.currentOffset) remainingSize)).buffers = s.buffers from rfl, hb]
          rfl
        show s.currentOffset + min (cur.bytes.length - s.currentOffset) remainingSize < headLen (BMState.mk s.buffers s.totalLength (s.currentOffset + min (cur.bytes.length - s.currentOffset) remainingSize))
        rw [hhd]
        omega
    · have hb2 : (BMState.mk s.buffers s.totalLength (s.currentOffset + min (cur.bytes.length - s.currentOffset) remainingSize)).buffers = cur :: rest := hb
      rw [unconsumed_cons _ cur rest hb2, huncons]
      rw [show (BMState.mk s.buffers s.totalLength (s.currentOffset + min (cur.bytes.length - s.currentOffset) remainingSize)).currentOffset = s.currentOffset + min (cur.bytes.length - s.currentOffset) remainingSize from rfl]
      rw [List.drop_append_of_le_length (by omega)]
      rw [List.drop_drop]

theorem createChunkGo_zero (s : BMState) (chunk : List Nat) (chunkOffset fuel : Nat) :
    createChunkGo s chunk chunkOffset 0 fuel = (chunk, s) := by
  cases fuel <;> rfl

/-- The `createChunk` copy loop, under the shape invariant and with enough
unconsumed bytes: it writes exactly the next `remainingSize` unconsumed
bytes into the chunk at `chunkOffset` and consumes them from the store;
`remainingSize` iterations suffice because every step copies at least one
byte. -/
theorem createChunkGo_spec (fuel : Nat) :
    ∀ (s : BMState) (chunk : List Nat) (chunkOffset remainingSize : Nat),
    segShape s → remainingSize ≤ (unconsumed s).length →
    chunkOffset + remainingSize ≤ chunk.length →
    remainingSize ≤ fuel →
    ((createChunkGo s chunk chunkOffset remainingSize fuel).1
        = bufWrite chunk chunkOffset ((unconsumed s).take remainingSize) ∧
     segShape (createChunkGo s chunk chunkOffset remainingSize fuel).2 ∧
     unconsumed (createChunkGo s chunk chunkOffset remainingSize fuel).2
        = (unconsumed s).drop remainingSize ∧
     (createChunkGo s chunk chunkOffset remainingSize fuel).2.totalLength
        = s.totalLength) := by
  induction fuel with
  | zero =>
    intro s chunk chunkOffset remainingSize hs hle hchunk hfuel
    have h0 : remainingSize = 0 := by omega
    subst h0
    rw [createChunkGo_zero]
    exact ⟨by rw [List.take_zero, bufWrite_nil], hs, by simp, rfl⟩
  | succ fuel ih =>
    intro s chunk chunkOffset remainingSize hs hle hchunk hfuel
    by_cases h0 : remainingSize = 0
    · subst h0
      rw [createChunkGo_zero]
      exact ⟨by rw [List.take_zero, bufWrite_nil], hs, by simp, rfl⟩
    · have hr1 : 1 ≤ remainingSize := by omega
      have hne : s.buffers ≠ [] := by
        intro hnil
        have hu : unconsumed s = [] := by rw [unconsumed, hnil]
        rw [hu] at hle
        simp at hle
        omega
      obtain ⟨copied, s', hstep, hc1, hcr, hcu, hs', hu', ht', _⟩ :=
        copyToChunk_spec s chunk chunkOffset remainingSize hs hne hr1
      have hunfold : createChunkGo s chunk chunkOffset remainingSize (fuel + 1)
          = createChunkGo s' (bufWrite chunk chunkOffset ((unconsumed s).take copied))
              (chunkOffset + copied) (remainingSize - copied) fuel := by
        rw [createChunkGo, if_neg h0,
          if_neg (by simpa [List.isEmpty_iff] using hne), hstep]
      rw [hunfold]
      have hlenu : (unconsumed s').length = (unconsumed s).length - copied := by
        rw [hu', List.length_drop]
      have hle' : remainingSize - copied ≤ (unconsumed s').length := by omega
      have hchunk' : chunkOffset + copied + (remainingSize - copied)
          ≤ (bufWrite chunk chunkOffset ((unconsumed s).take copied)).length := by
        rw [length_bufWrite]
        omega
      obtain ⟨g1, g2, g3, g4⟩ := ih s' (bufWrite chunk chunkOffset ((unconsumed s).take copied))
        (chunkOffset + copied) (remainingSize - copied) hs' hle' hchunk' (by omega)
      have ha : ((unconsumed s).take copied).length = copied := by
        rw [List.length_take]
        omega
      refine ⟨?_, g2, ?_, g4.trans ht'⟩
      · rw [g1, hu']
        have hstep2 : bufWrite (bufWrite chunk chunkOffset ((unconsumed s).take copied))
              (chunkOffset + copied) (((unconsumed s).drop copied).take (remainingSize - copied))
            = bufWrite chunk chunkOffset
                ((unconsumed s).take copied
                  ++ ((unconsumed s).drop copied).take (remainingSize - copied)) := by
          have := bufWrite_append chunk chunkOffset ((unconsumed s).take copied)
            (((unconsumed s).drop copied).take (remainingSize - copied))
            (by rw [ha, List.length_take, List.length_drop]; omega)
          rwa [ha] at this
        rw [hstep2, ← List.take_add,
          show copied + (remainingSize - copied) = remainingSize from by omega]
      · rw [g3, hu', List.drop_drop,
          show copied + (remainingSize - copied) = remainingSize from by omega]

/-- `createChunk` under the Byte Store invariant with enough buffered data:
it returns a freshly allocated chunk (tag `none`) holding exactly the next
`size` unconsumed bytes, consumes them, and decrements `totalLength` by
`size`. -/
theorem createChunk_spec (s : BMState) (size : Nat) (hinv : bmInv s)
    (h1 : 1 ≤ size) (hsz : size ≤ s.totalLength) :
    ∃ s', createChunk s size = (some ⟨none, (unconsumed s).take size⟩, s') ∧
      bmInv s' ∧ unconsumed s' = (unconsumed s).drop size ∧
      s'.totalLength = s.totalLength - size := by
  have hul : size ≤ (unconsumed s).length := by
    rw [← hinv.2]
    exact hsz
  obtain ⟨g1, g2, g3, g4⟩ := createChunkGo_spec (size + s.buffers.length) s
    (List.replicate size 0) 0 size hinv.1 hul
    (by rw [List.length_replicate]; omega) (by omega)
  have hchunk : (createChunkGo s (List.replicate size 0) 0 size (size + s.buffers.length)).1
      = (unconsumed s).take size := by
    rw [g1, bufWrite_full]
    rw [List.length_take, List.length_replicate]
    omega
  have hck : createChunk s size
      = (some ⟨none, (unconsumed s).take size⟩,
         BMState.mk (createChunkGo s (List.replicate size 0) 0 size (size + s.buffers.length)).2.buffers
           ((createChunkGo s (List.replicate size 0) 0 size (size + s.buffers.length)).2.totalLength - size)
           (createChunkGo s (List.replicate size 0) 0 size (size + s.buffers.length)).2.currentOffset) := by
    simp only [createChunk]
    rw [if_neg (by omega), hchunk]
  have hueq : unconsumed (BMState.mk
        (createChunkGo s (List.replicate size 0) 0 size (size + s.buffers.length)).2.buffers
        ((createChunkGo s (List.replicate size 0) 0 size (size + s.buffers.length)).2.totalLength - size)
        (createChunkGo s (List.replicate size 0) 0 size (size + s.buffers.length)).2.currentOffset)
      = unconsumed (createChunkGo s (List.replicate size 0) 0 size (size + s.buffers.length)).2 := rfl
  have hseq : segShape (BMState.mk
        (createChunkGo s (List.replicate size 0) 0 size (size + s.buffers.length)).2.buffers
        ((createChunkGo s (List.replicate size 0) 0 size (size + s.buffers.length)).2.totalLength - size)
        (createChunkGo s (List.replicate size 0) 0 size (size + s.buffers.length)).2.currentOffset)
      ↔ segShape (createChunkGo s (List.replicate size 0) 0 size (size + s.buffers.length)).2 :=
    Iff.rfl
  refine ⟨_, hck, ⟨hseq.mpr g2, ?_⟩, ?_, ?_⟩
  · show (createChunkGo s (List.replicate size 0) 0 size (size + s.buffers.length)).2.totalLength
        - size = _
    rw [hueq, g4, hinv.2, g3, List.length_drop]
  · rw [hueq, g3]
  · show (createChunkGo s (List.replicate size 0) 0 size (size + s.buffers.length)).2.totalLength
        - size = _
    rw [g4]

/-- The `getChunks` carving loop: starting from an invariant-satisfying
store it returns only fresh full-size chunks whose concatenation is the
consumed prefix of the unconsumed bytes, leaves fewer than `size` bytes
held, and preserves the invariant. -/
theorem getChunksGo_spec (fuel : Nat) :
    ∀ (s : BMState) (size : Nat), bmInv s → 1 ≤ size → s.totalLength < fuel →
    (bmInv (getChunksGo s size fuel).2 ∧
     (∀ c ∈ (getChunksGo s size fuel).1, c.id = none ∧ c.bytes.length = size) ∧
     ((getChunksGo s size fuel).1.map TaggedBuf.bytes).flatten
        ++ unconsumed (getChunksGo s size fuel).2 = unconsumed s ∧
     (getChunksGo s size fuel).2.totalLength < size ∧
     (s.totalLength < size → (getChunksGo s size fuel).1 = [])) := by
  induction fuel with
  | zero =>
    intro s size hinv h1 hf
    omega
  | succ fuel ih =>
    intro s size hinv h1 hf
    by_cases hge : size ≤ s.totalLength
    · obtain ⟨s', hck, hinv', hu', ht'⟩ := createChunk_spec s size hinv h1 hge
      have hunfold : getChunksGo s size (fuel + 1)
          = ((⟨none, (unconsumed s).take size⟩ : TaggedBuf) :: (getChunksGo s' size fuel).1,
             (getChunksGo s' size fuel).2) := by
        rw [getChunksGo, if_pos hge, hck]
      rw [hunfold]
      obtain ⟨g1, g2, g3, g4, g5⟩ := ih s' size hinv' h1 (by omega)
      refine ⟨g1, ?_, ?_, g4, fun hlt => absurd hge (by omega)⟩
      · intro c hc
        rcases List.mem_cons.mp hc with h | h
        · refine ⟨by rw [h], ?_⟩
          rw [h]
          show ((unconsumed s).take size).length = size
          rw [List.length_take, ← hinv.2]
          omega
        · exact g2 c h
      · show ((unconsumed s).take size :: (getChunksGo s' size fuel).1.map TaggedBuf.bytes).flatten
            ++ unconsumed (getChunksGo s' size fuel).2 = unconsumed s
        rw [List.flatten_cons, List.append_assoc, g3, hu', List.take_append_drop]
    · rw [getChunksGo, if_neg hge]
      exact ⟨hinv, by simp, by simp, by show s.totalLength < size; omega, fun _ => rfl⟩

/-- `getChunks` for a positive requested size: succeeds, returns only fresh
chunks of exactly the requested size in input byte order, leaves fewer than
`size` bytes buffered, and preserves the invariant. -/
theorem getChunks_spec (s : BMState) (size : Int) (hinv : bmInv s) (hpos : 0 < size) :
    ∃ cs s', getChunks s size = .ok (cs, s') ∧ bmInv s' ∧
      (∀ c ∈ cs, c.id = none ∧ c.bytes.length = size.toNat) ∧
      (cs.map TaggedBuf.bytes).flatten ++ unconsumed s' = unconsumed s ∧
      s'.totalLength < size.toNat ∧
      (s.totalLength < size.toNat → cs = []) := by
  by_cases h0 : s.totalLength = 0
  · refine ⟨[], s, ?_, hinv, by simp, by simp, by omega, fun _ => rfl⟩
    rw [getChunks, if_neg (by omega), if_pos h0]
  · obtain ⟨g1, g2, g3, g4, g5⟩ := getChunksGo_spec (s.totalLength + 1) s size.toNat hinv
      (by omega) (by omega)
    refine ⟨_, _, ?_, g1, g2, g3, g4, g5⟩
    rw [getChunks, if_neg (by omega), if_neg h0]

theorem consolidateBuffers_eq (s : BMState) (hinv : bmInv s)
    (hgt : ¬ s.buffers.length ≤ 1) :
    consolidateBuffers s = ⟨[⟨none, unconsumed s⟩], s.totalLength, 0⟩ := by
  rw [consolidateBuffers, if_neg hgt]
  have htake : (unconsumed s ++ List.replicate s.totalLength 0).take s.totalLength
      = unconsumed s := by
    rw [hinv.2]
    exact List.take_left _ _
  rw [htake]

theorem unconsumed_length_pos (s : BMState) (hinv : bmInv s)
    (hgt : ¬ s.buffers.length ≤ 1) : 0 < (unconsumed s).length := by
  have hne : s.buffers ≠ [] := by
    intro h
    rw [h] at hgt
    simp at hgt
  obtain ⟨cur, rest, hb⟩ := List.exists_cons_of_ne_nil hne
  have hrest : rest ≠ [] := by
    intro h
    rw [hb, h] at hgt
    simp at hgt
  obtain ⟨r1, rs, hr⟩ := List.exists_cons_of_ne_nil hrest
  have hr1pos : 0 < r1.bytes.length := hinv.1.1 r1 (by rw [hb, hr]; simp)
  rw [unconsumed_cons s cur rest hb, hr]
  have hfl : ((r1 :: rs).map TaggedBuf.bytes).flatten
      = r1.bytes ++ (rs.map TaggedBuf.bytes).flatten := rfl
  rw [hfl, List.length_append, List.length_append]
  omega

/-- `consolidateBuffers` keeps the unconsumed bytes, the total length and
the invariant. -/
theorem consolidateBuffers_spec (s : BMState) (hinv : bmInv s) :
    bmInv (consolidateBuffers s) ∧
    unconsumed (consolidateBuffers s) = unconsumed s ∧
    (consolidateBuffers s).totalLength = s.totalLength := by
  by_cases hle : s.buffers.length ≤ 1
  · rw [consolidateBuffers, if_pos hle]
    exact ⟨hinv, rfl, rfl⟩
  · have hupos := unconsumed_length_pos s hinv hle
    rw [consolidateBuffers_eq s hinv hle]
    have hu : unconsumed (⟨[⟨none, unconsumed s⟩], s.totalLength, 0⟩ : BMState)
        = unconsumed s := by
      show (unconsumed s).drop 0 ++ ([] : List (List Nat)).flatten = unconsumed s
      simp
    refine ⟨⟨⟨?_, ?_, ?_⟩, ?_⟩, hu, rfl⟩
    · intro b hb
      rw [List.mem_singleton] at hb
      rw [hb]
      exact hupos
    · intro h
      simp at h
    · intro _
      show (0 : Nat) < headLen _
      rw [headLen]
      simpa using hupos
    · show s.totalLength = _
      rw [hu, hinv.2]

/-- `addBuffer` appends the new bytes to the unconsumed stream, adds their
count to `totalLength`, and preserves the invariant (also through the
MAX_BUFFER_COUNT consolidation). -/
theorem addBuffer_spec (s : BMState) (b : TaggedBuf) (hinv : bmInv s) :
    bmInv (addBuffer s b) ∧
    unconsumed (addBuffer s b) = unconsumed s ++ b.bytes ∧
    (addBuffer s b).totalLength = s.totalLength + b.bytes.length := by
  by_cases hz : b.bytes.length = 0
  · rw [addBuffer, if_pos hz]
    have hbnil : b.bytes = [] := List.eq_nil_of_length_eq_zero hz
    exact ⟨hinv, by rw [hbnil, List.append_nil], by omega⟩
  · have hu1 : unconsumed (BMState.mk (s.buffers ++ [b])
        (s.totalLength + b.bytes.length) s.currentOffset) = unconsumed s ++ b.bytes := by
      cases hbuf : s.buffers with
      | nil =>
        have hco : s.currentOffset = 0 := hinv.1.2.1 (by rw [hbuf]; rfl)
        show unconsumed (BMState.mk ([] ++ [b]) _ s.currentOffset) = _
        rw [List.nil_append, unconsumed, hco]
        show b.bytes.drop 0 ++ ([] : List (List Nat)).flatten = _
        rw [unconsumed, hbuf]
        simp
      | cons cur rest =>
        show unconsumed (BMState.mk ((cur :: rest) ++ [b]) _ s.currentOffset) = _
        rw [List.cons_append]
        show cur.bytes.drop s.currentOffset ++ ((rest ++ [b]).map TaggedBuf.bytes).flatten = _
        rw [unconsumed_cons s cur rest hbuf, List.map_append, List.flatten_append]
        simp [List.append_assoc]
    have hinv1 : bmInv (BMState.mk (s.buffers ++ [b])
        (s.totalLength + b.bytes.length) s.currentOffset) := by
      refine ⟨⟨?_, ?_, ?_⟩, ?_⟩
      · intro x hx
        rcases List.mem_append.mp hx with h | h
        · exact hinv.1.1 x h
        · rw [List.mem_singleton] at h
          rw [h]
          omega
      · intro h
        rw [show (BMState.mk (s.buffers ++ [b]) (s.totalLength + b.bytes.length)
            s.currentOffset).buffers = s.buffers ++ [b] from rfl] at h
        simp at h
      · intro _
        show s.currentOffset < headLen _
        cases hbuf : s.buffers with
        | nil =>
          have hco : s.currentOffset = 0 := hinv.1.2.1 (by rw [hbuf]; rfl)
          rw [headLen, hco]
          show 0 < ((([] : List TaggedBuf) ++ [b]).headD ⟨none, []⟩).bytes.length
          simpa using by omega
        | cons cur rest =>
          have hco : s.currentOffset < cur.bytes.length :=
            segShape_nonempty_head s hinv.1 cur rest hbuf
          rw [headLen]
          show s.currentOffset
              < (((cur :: rest) ++ [b]).headD ⟨none, []⟩).bytes.length
          rw [List.cons_append]
          exact hco
      · show s.totalLength + b.bytes.length = _
        rw [hu1, List.length_append, hinv.2]
    have heq : addBuffer s b
        = if MAX_BUFFER_COUNT < (s.buffers ++ [b]).length then
            consolidateBuffers (BMState.mk (s.buffers ++ [b])
              (s.totalLength + b.bytes.length) s.currentOffset)
          else BMState.mk (s.buffers ++ [b])
              (s.totalLength + b.bytes.length) s.currentOffset := by
      rw [addBuffer, if_neg hz]
    by_cases hc : MAX_BUFFER_COUNT < (s.buffers ++ [b]).length
    · rw [heq, if_pos hc]
      obtain ⟨c1, c2, c3⟩ := consolidateBuffers_spec _ hinv1
      exact ⟨c1, by rw [c2, hu1], by rw [c3]⟩
    · rw [heq, if_neg hc]
      exact ⟨hinv1, hu1, rfl⟩

/-- `getRemainingData` does not change the unconsumed bytes or the total
length (though it may consolidate), preserves the invariant, and returns
`none` exactly on an empty store, otherwise a buffer holding exactly the
unconsumed bytes. -/
theorem getRemainingData_spec (s : BMState) (hinv : bmInv s) :
    bmInv (getRemainingData s).2 ∧
    unconsumed (getRemainingData s).2 = unconsumed s ∧
    (getRemainingData s).2.totalLength = s.totalLength ∧
    (s.totalLength = 0 → (getRemainingData s).1 = none) ∧
    (s.totalLength ≠ 0 →
      ∃ r, (getRemainingData s).1 = some r ∧ r.bytes = unconsumed s) := by
  by_cases h0 : s.totalLength = 0
  · rw [getRemainingData, if_pos h0]
    exact ⟨hinv, rfl, rfl, fun _ => rfl, fun h => absurd h0 h⟩
  · by_cases h1 : s.buffers.length = 1
    · rw [getRemainingData, if_neg h0, if_pos h1]
      obtain ⟨cur, rest, hb⟩ := List.exists_cons_of_ne_nil
        (by intro h; rw [h] at h1; simp at h1 : s.buffers ≠ [])
      have hrest : rest = [] := by
        rw [hb] at h1
        simpa using h1
      subst hrest
      refine ⟨hinv, rfl, rfl, fun h => absurd h h0, fun _ => ?_⟩
      refine ⟨getSingleBufferRemaining s, rfl, ?_⟩
      have hhead : s.buffers.headD ⟨none, []⟩ = cur := by
        rw [hb]
        rfl
      have hsingle : getSingleBufferRemaining s
          = if s.currentOffset = 0 then cur
            else ⟨none, cur.bytes.drop s.currentOffset⟩ := by
        simp only [getSingleBufferRemaining, hhead]
      by_cases hco : s.currentOffset = 0
      · rw [hsingle, if_pos hco]
        rw [unconsumed_cons s cur [] hb, hco]
        simp
      · rw [hsingle, if_neg hco]
        show cur.bytes.drop s.currentOffset = _
        rw [unconsumed_cons s cur [] hb]
        simp
    · have hne : s.buffers ≠ [] := by
        intro h
        have hun : unconsumed s = [] := by rw [unconsumed, h]
        rw [hinv.2, hun] at h0
        simp at h0
      have hlp : 0 < s.buffers.length := List.length_pos.mpr hne
      have hgt : ¬ s.buffers.length ≤ 1 := by omega
      have hcons := consolidateBuffers_eq s hinv hgt
      rw [getRemainingData, if_neg h0, if_neg h1, hcons]
      have hu : unconsumed (⟨[⟨none, unconsumed s⟩], s.totalLength, 0⟩ : BMState)
          = unconsumed s := by
        show (unconsumed s).drop 0 ++ ([] : List (List Nat)).flatten = unconsumed s
        simp
      obtain ⟨c1, c2, c3⟩ := consolidateBuffers_spec s hinv
      rw [hcons] at c1 c2 c3
      refine ⟨c1, c2, c3, fun h => absurd h h0, fun _ => ?_⟩
      exact ⟨⟨none, unconsumed s⟩, rfl, rfl⟩

/-- Reachable states of a DefaultBufferManager: freshly constructed, then
closed under the public operations `addBuffer`, `getChunks`,
`getRemainingData` and `clear`. -/
inductive Reachable : BMState → Prop where
  | init : Reachable bmInit
  | add (s : BMState) (b : TaggedBuf) : Reachable s → Reachable (addBuffer s b)
  | chunks (s : BMState) (size : Int) (cs : List TaggedBuf) (s' : BMState) :
      Reachable s → getChunks s size = .ok (cs, s') → Reachable s'
  | remaining (s : BMState) : Reachable s → Reachable (getRemainingData s).2
  | clearOp (s : BMState) : Reachable s → Reachable (clear s)

/-- C8.  Byte Store invariant: after every sequence of Buffer Manager
operations, `totalLength` equals the number of unconsumed bytes across all
retained segments and the consumed offset is strictly inside the head
segment (fully consumed segments are evicted, no empty segment is
retained). -/
theorem c8_byte_store_invariant (s : BMState) (h : Reachable s) : bmInv s := by
  induction h with
  | init => decide
  | add s b _ ih => exact (addBuffer_spec s b ih).1
  | chunks s size cs s' _ hok ih =>
    by_cases hpos : 0 < size
    · obtain ⟨cs0, s0, heq, hinv0, _, _, _, _⟩ := getChunks_spec s size ih hpos
      rw [heq] at hok
      have hps : (cs0, s0) = (cs, s') := by
        injection hok
      have : s0 = s' := (Prod.mk.injEq _ _ _ _).mp hps |>.2
      rw [← this]
      exact hinv0
    · rw [getChunks, if_pos (by omega)] at hok
      exact absurd hok (by simp)
  | remaining s _ ih => exact (getRemainingData_spec s ih).1
  | clearOp s _ ih =>
    show bmInv (⟨[], 0, 0⟩ : BMState)
    decide

/-- C3 counterexample: the claim says getChunks returns an empty sequence
and does not raise whenever size <= 0; the primary DefaultBufferManager
instead throws a BufferOperationError for size 0 (its own doc comment
documents the throw). -/
theorem c3_counterexample :
    (0 : Int) ≤ 0 ∧
    getChunks (addBuffer bmInit ⟨some 0, [1, 2, 3]⟩) 0
      = .error (.bufferOperation "getChunks"
          "Invalid chunk size. Must be greater than 0.") := by
  decide

/-- C3 amended: for every invariant-satisfying store, getChunks with a
non-positive size throws a BufferOperationError (rather than returning an
empty sequence); for every positive size it succeeds, every returned block
has exactly the requested size (never shorter), and strictly zero blocks
are returned when the held byte count is smaller than the requested
size. -/
theorem c3_getChunks_boundaries (s : BMState) (size : Int) (hinv : bmInv s) :
    (size ≤ 0 → getChunks s size
      = .error (.bufferOperation "getChunks"
          "Invalid chunk size. Must be greater than 0.")) ∧
    (0 < size → ∃ cs s', getChunks s size = .ok (cs, s') ∧
      (∀ c ∈ cs, c.bytes.length = size.toNat) ∧
      (s.totalLength < size.toNat → cs = [])) := by
  constructor
  · intro hle
    rw [getChunks, if_pos hle]
  · intro hpos
    obtain ⟨cs, s', heq, _, hlen, _, _, hempty⟩ := getChunks_spec s size hinv hpos
    exact ⟨cs, s', heq, fun c hc => (hlen c hc).2, hempty⟩

/-- Witness for c3_getChunks_boundaries on a concrete store and size. -/
theorem c3_getChunks_boundaries_witness :
    bmInv (addBuffer bmInit ⟨some 0, [1, 2, 3]⟩) ∧
    (((-2) : Int) ≤ 0 → getChunks (addBuffer bmInit ⟨some 0, [1, 2, 3]⟩) (-2)
      = .error (.bufferOperation "getChunks"
          "Invalid chunk size. Must be greater than 0.")) ∧
    ((0 : Int) < (-2 : Int) → ∃ cs s',
      getChunks (addBuffer bmInit ⟨some 0, [1, 2, 3]⟩) (-2) = .ok (cs, s') ∧
      (∀ c ∈ cs, c.bytes.length = ((-2) : Int).toNat) ∧
      ((addBuffer bmInit ⟨some 0, [1, 2, 3]⟩).totalLength < ((-2) : Int).toNat →
        cs = [])) :=
  ⟨by decide,
   (c3_getChunks_boundaries (addBuffer bmInit ⟨some 0, [1, 2, 3]⟩) (-2) (by decide)).1,
   (c3_getChunks_boundaries (addBuffer bmInit ⟨some 0, [1, 2, 3]⟩) (-2) (by decide)).2⟩

theorem bmState_empty_of (s : BMState) (hs : segShape s) (hu : unconsumed s = [])
    (ht : s.totalLength = 0) : s = ⟨[], 0, 0⟩ := by
  cases hb : s.buffers with
  | nil =>
    have hco := hs.2.1 (by rw [hb]; rfl)
    cases s with
    | mk bufs tl co =>
      simp only at hb hco ht
      rw [hb, hco, ht]
  | cons cur rest =>
    have hco := segShape_nonempty_head s hs cur rest hb
    rw [unconsumed_cons s cur rest hb] at hu
    have := congrArg List.length hu
    rw [List.length_append, List.length_drop] at this
    simp at this
    omega

/-- C2 counterexample: a Buffer Manager holding exactly one caller-supplied
segment, no consumed offset, segment length equal to the requested chunk
size — yet getChunks returns a chunk freshly allocated by
`Buffer.allocUnsafe` (identity tag `none`), not the segment passed to
addBuffer (identity tag `some 0`): the claimed zero-copy identity
optimization does not exist in `createChunk`. -/
theorem c2_counterexample :
    (addBuffer bmInit ⟨some 0, [9, 8, 7, 6]⟩).buffers = [⟨some 0, [9, 8, 7, 6]⟩] ∧
    (addBuffer bmInit ⟨some 0, [9, 8, 7, 6]⟩).currentOffset = 0 ∧
    getChunks (addBuffer bmInit ⟨some 0, [9, 8, 7, 6]⟩) 4
      = .ok ([⟨none, [9, 8, 7, 6]⟩], ⟨[], 0, 0⟩) ∧
    (⟨none, [9, 8, 7, 6]⟩ : TaggedBuf).id ≠ (⟨some 0, [9, 8, 7, 6]⟩ : TaggedBuf).id := by
  decide

/-- C2 amended: in the state the claim describes (a single source segment,
no consumed offset, length equal to the requested size), getChunks returns
one freshly allocated chunk that is contents-equal but never
identity-equal to the segment; the identity return of the exact caller
segment exists in getRemainingData instead (single segment, zero
offset). -/
theorem c2_zero_copy (tag : Option Nat) (bytes : List Nat) (size : Nat)
    (hlen : bytes.length = size) (h0 : 0 < size) :
    getChunks (addBuffer bmInit ⟨tag, bytes⟩) (size : Int)
      = .ok ([⟨none, bytes⟩], ⟨[], 0, 0⟩) ∧
    getRemainingData (addBuffer bmInit ⟨tag, bytes⟩)
      = (some ⟨tag, bytes⟩, addBuffer bmInit ⟨tag, bytes⟩) := by
  have hbne : ¬ (⟨tag, bytes⟩ : TaggedBuf).bytes.length = 0 := by
    show ¬ bytes.length = 0
    omega
  have hadd : addBuffer bmInit ⟨tag, bytes⟩ = ⟨[⟨tag, bytes⟩], bytes.length, 0⟩ := by
    simp [addBuffer, hbne, MAX_BUFFER_COUNT, bmInit]
  have hu1 : unconsumed (⟨[⟨tag, bytes⟩], bytes.length, 0⟩ : BMState) = bytes := by
    show bytes.drop 0 ++ ([] : List (List Nat)).flatten = bytes
    simp
  have hinv1 : bmInv (⟨[⟨tag, bytes⟩], bytes.length, 0⟩ : BMState) := by
    refine ⟨⟨?_, ?_, ?_⟩, ?_⟩
    · intro b hb
      rw [List.mem_singleton] at hb
      rw [hb]
      show 0 < bytes.length
      omega
    · intro h
      simp at h
    · intro _
      show 0 < headLen _
      show 0 < bytes.length
      omega
    · show bytes.length = _
      rw [hu1]
  constructor
  · obtain ⟨s', hck, hinv', hu', ht'⟩ := createChunk_spec
      (⟨[⟨tag, bytes⟩], bytes.length, 0⟩ : BMState) size hinv1 (by omega)
      (by show size ≤ bytes.length; omega)
    have hs'e : s' = ⟨[], 0, 0⟩ := by
      apply bmState_empty_of s' hinv'.1
      · rw [hu', hu1, ← hlen, List.drop_length]
      · rw [ht']
        show bytes.length - size = 0
        omega
    have htk : (unconsumed (⟨[⟨tag, bytes⟩], bytes.length, 0⟩ : BMState)).take size
        = bytes := by
      rw [hu1, ← hlen, List.take_length]
    rw [hadd, getChunks, if_neg (by omega),
      if_neg (by show ¬ bytes.length = 0; omega)]
    have htn : ((size : Int)).toNat = size := by omega
    rw [htn]
    have hunfold : getChunksGo (⟨[⟨tag, bytes⟩], bytes.length, 0⟩ : BMState) size
          (bytes.length + 1)
        = ((⟨none, bytes⟩ : TaggedBuf) :: (getChunksGo s' size bytes.length).1,
           (getChunksGo s' size bytes.length).2) := by
      rw [getChunksGo, if_pos (by show size ≤ bytes.length; omega), hck, htk]
    have hrest : getChunksGo s' size bytes.length = ([], ⟨[], 0, 0⟩) := by
      rw [hs'e]
      cases bytes.length with
      | zero => rfl
      | succ n => rw [getChunksGo, if_neg (by show ¬ size ≤ 0; omega)]
    show Except.ok (getChunksGo (⟨[⟨tag, bytes⟩], bytes.length, 0⟩ : BMState) size
        (bytes.length + 1)) = _
    rw [hunfold, hrest]
  · rw [hadd, getRemainingData,
      if_neg (by show ¬ bytes.length = 0; omega), if_pos (by rfl)]
    rfl

/-- Witness for c2_zero_copy at the counterexample's concrete store. -/
theorem c2_zero_copy_witness :
    ([9, 8, 7, 6] : List Nat).length = 4 ∧ (0 : Nat) < 4 ∧
    (getChunks (addBuffer bmInit ⟨some 5, [9, 8, 7, 6]⟩) ((4 : Nat) : Int)
      = .ok ([⟨none, [9, 8, 7, 6]⟩], ⟨[], 0, 0⟩) ∧
    getRemainingData (addBuffer bmInit ⟨some 5, [9, 8, 7, 6]⟩)
      = (some ⟨some 5, [9, 8, 7, 6]⟩, addBuffer bmInit ⟨some 5, [9, 8, 7, 6]⟩)) :=
  ⟨rfl, by decide, c2_zero_copy (some 5) [9, 8, 7, 6] 4 rfl (by decide)⟩

/-- Witness for c8_byte_store_invariant at a concrete reachable state. -/
theorem c8_byte_store_invariant_witness :
    Reachable (addBuffer bmInit ⟨some 0, [1, 2, 3]⟩)
      ∧ bmInv (addBuffer bmInit ⟨some 0, [1, 2, 3]⟩) :=
  ⟨Reachable.add bmInit ⟨some 0, [1, 2, 3]⟩ Reachable.init,
   c8_byte_store_invariant (addBuffer bmInit ⟨some 0, [1, 2, 3]⟩)
     (Reachable.add bmInit ⟨some 0, [1, 2, 3]⟩ Reachable.init)⟩

/-! ## The Stream-based StreamBlockify orchestrator (third snapshot of
src/src/default-buffer-manager.ts) and the Duplex orchestrator of
src/unnamed/part_015.

Both keep the five DefaultStreamStateManager flags next to a
DefaultBufferManager.  Emitted events (`data`, `drain`, `end`, `error`)
are collected in order in a list. -/

/-- An emitted stream event. -/
inductive Ev where
  | data (b : TaggedBuf)
  | drain
  | endEv
  | error (e : JsError)
deriving DecidableEq

/-- Orchestrator state: the configured chunk size (an unvalidated JS number
in the Stream variant, default 512), the buffer manager, and the five
state-manager flags. -/
structure SBState where
  chunkSize : Int
  bm : BMState
  paused : Bool
  ended : Bool
  endEmitted : Bool
  emitting : Bool
  needDrain : Bool
deriving DecidableEq

/-- A freshly constructed stream with the given chunk size. -/
def mkStreamState (size : Int) : SBState :=
  ⟨size, bmInit, false, false, false, false, false⟩

/-- `_handleEvents`: drain first when flagged, then the terminal event when
`_isEnded` holds (buffer empty, ended, end not yet emitted). -/
def handleEvents (s : SBState) : SBState × List Ev :=
  let p := if s.needDrain then ({ s with needDrain := false }, [Ev.drain]) else (s, [])
  if p.1.bm.totalLength = 0 ∧ p.1.ended = true ∧ ¬ p.1.endEmitted = true then
    ({ p.1 with endEmitted := true }, p.2 ++ [Ev.endEv])
  else p

/-- `_emitChunks`: re-entrancy / pause guard, then under the emitting flag:
emit all full chunks, the remainder when flushing (clearing the manager
afterwards), and the drain/end events; a thrown buffer error is caught and
emitted on the error channel, and the emitting flag is always cleared. -/
def emitChunks (s : SBState) (needToFlush : Bool) : SBState × List Ev :=
  if s.emitting = true ∨ s.paused = true then (s, [])
  else
    let s0 := { s with emitting := true }
    match getChunks s0.bm s0.chunkSize with
    | .error e => ({ s0 with emitting := false }, [Ev.error e])
    | .ok (chunks, bm1) =>
      let s1 := { s0 with bm := bm1 }
      let evs1 := chunks.map Ev.data
      let p2 :=
        if needToFlush then
          match getRemainingData s1.bm with
          | (none, bm2) => ({ s1 with bm := bm2 }, ([] : List Ev))
          | (some r, bm2) => ({ s1 with bm := clear bm2 }, [Ev.data r])
        else (s1, ([] : List Ev))
      let p3 := handleEvents p2.1
      ({ p3.1 with emitting := false }, evs1 ++ p2.2 ++ p3.2)

/-- Stream-variant `write`: throws after end, buffers the (non-empty)
chunk, and on reaching the threshold either reports backpressure while
paused or runs an emission pass.  Returns the boolean the caller sees and
the events fired during the call. -/
def write (s : SBState) (chunk : TaggedBuf) : Except JsError (SBState × Bool × List Ev) :=
  if s.ended = true then .error (.js "StreamBlockify: write after end")
  else
    let s1 := if chunk.bytes.length ≠ 0 then { s with bm := addBuffer s.bm chunk } else s
    if s1.chunkSize ≤ (s1.bm.totalLength : Int) then
      if s1.paused = true then .ok ({ s1 with needDrain := true }, false, [])
      else
        let p := emitChunks s1 false
        .ok (p.1, true, p.2)
    else .ok (s1, true, [])

/-- `pause()`: set the flag; buffering continues, emission is suppressed. -/
def pauseOp (s : SBState) : SBState := { s with paused := true }

/-- `resume()`: clear the flag and run an emission pass. -/
def resumeOp (s : SBState) : SBState × List Ev :=
  emitChunks { s with paused := false } false

/-- `flush()`: an emission pass with the flush behaviour. -/
def flushOp (s : SBState) : SBState × List Ev := emitChunks s true

/-- `end(chunk?)`: optionally write the final chunk (a write-after-end
throw propagates before `ended` is set), then set `ended` and flush. -/
def endOp (s : SBState) (chunk : Option TaggedBuf) : Except JsError (SBState × List Ev) :=
  match chunk with
  | some c =>
    match write s c with
    | .error e => .error e
    | .ok (s1, _, evs1) =>
      let p := flushOp { s1 with ended := true }
      .ok (p.1, evs1 ++ p.2)
  | none =>
    let p := flushOp { s with ended := true }
    .ok (p.1, p.2)

/-- The public operations of a stream instance. -/
inductive Op where
  | write (b : TaggedBuf)
  | pause
  | resume
  | finish (b : Option TaggedBuf)
  | flush
deriving DecidableEq

/-- One public call.  A thrown write-after-end error leaves the state
untouched and fires nothing (the Stream variant throws before any
mutation). -/
def step (s : SBState) (op : Op) : SBState × List Ev :=
  match op with
  | .write b =>
    match write s b with
    | .error _ => (s, [])
    | .ok (s', _, evs) => (s', evs)
  | .pause => (pauseOp s, [])
  | .resume => resumeOp s
  | .finish b =>
    match endOp s b with
    | .error _ => (s, [])
    | .ok (s', evs) => (s', evs)
  | .flush => flushOp s

/-- A whole execution: the final state and the full event trace. -/
def run (s : SBState) : List Op → SBState × List Ev
  | [] => (s, [])
  | op :: ops =>
    let p := step s op
    let q := run p.1 ops
    (q.1, p.2 ++ q.2)

/-- The byte payloads of the data events of a trace, in order. -/
def dataPayloads (evs : List Ev) : List (List Nat) :=
  evs.filterMap fun e =>
    match e with
    | Ev.data b => some b.bytes
    | _ => none

/-- part_015 `emitChunks`: same pass, but a thrown buffer error is wrapped
twice (`emitFullChunks`, then `emitChunks`) before reaching the error
channel. -/
def emitChunksD (s : SBState) (needToFlush : Bool) : SBState × List Ev :=
  if s.emitting = true ∨ s.paused = true then (s, [])
  else
    let s0 := { s with emitting := true }
    match getChunks s0.bm s0.chunkSize with
    | .error e =>
      ({ s0 with emitting := false },
       [Ev.error (.bufferOperation "emitChunks"
          (JsError.message (.bufferOperation "emitFullChunks" (JsError.message e))))])
    | .ok (chunks, bm1) =>
      let s1 := { s0 with bm := bm1 }
      let evs1 := chunks.map Ev.data
      let p2 :=
        if needToFlush then
          match getRemainingData s1.bm with
          | (none, bm2) => ({ s1 with bm := bm2 }, ([] : List Ev))
          | (some r, bm2) => ({ s1 with bm := clear bm2 }, [Ev.data r])
        else (s1, ([] : List Ev))
      let p3 := handleEvents p2.1
      ({ p3.1 with emitting := false }, evs1 ++ p2.2 ++ p3.2)

/-- part_015 `write`: `validateWriteOperation` emits an error event and
throws when the stream has ended; while paused the write is refused
(`needDrain` set, `false` returned) WITHOUT buffering; otherwise
`processChunk` buffers and may emit.  The first component carries the
events emitted during the call, including those fired before a throw. -/
def writeD (s : SBState) (c : TaggedBuf) : List Ev × Except JsError (SBState × Bool) :=
  if s.ended = true then ([Ev.error .writeAfterEnd], .error .writeAfterEnd)
  else if s.paused = true then ([], .ok ({ s with needDrain := true }, false))
  else
    let s1 := if c.bytes.length ≠ 0 then { s with bm := addBuffer s.bm c } else s
    if s1.chunkSize ≤ (s1.bm.totalLength : Int) then
      if s1.paused = true then ([], .ok ({ s1 with needDrain := true }, true))
      else
        let p := emitChunksD s1 false
        (p.2, .ok (p.1, true))
    else ([], .ok (s1, true))

/-! ## The three constructors the corpus exposes (for the fail-fast claim).

A configured block size is a JS number or absent; rationals model the
numbers so that non-integers are representable (`Number.isInteger` is
`den = 1`). -/

/-- The Transform-variant constructor check (stream-blockify.ts):
`!options.blockSize || options.blockSize <= 0 ||
!Number.isInteger(options.blockSize)` throws a BlockifyError. -/
def mkTransformBlockify (blockSize : Option ℚ) : Except JsError ℚ :=
  match blockSize with
  | none => .error (.blockify "blockSize must be a positive integer")
  | some b =>
    if b = 0 ∨ b ≤ 0 ∨ b.den ≠ 1 then
      .error (.blockify "blockSize must be a positive integer")
    else .ok b

/-- The Stream-variant constructor (third snapshot of
default-buffer-manager.ts): `const { size = 512 } = config` with no
validation whatsoever. -/
def mkStreamBlockify (size : Option ℚ) : Except JsError ℚ :=
  .ok (size.getD 512)

/-- The Duplex-variant constructor of part_013: range check between
MIN_CHUNK_SIZE = 1 and MAX_CHUNK_SIZE = 10MB, throwing a ValidationError
outside the range (integrality is not checked). -/
def mkDuplexBlockify (size : Option ℚ) : Except JsError ℚ :=
  let providedSize := size.getD 512
  if providedSize < 1 ∨ 10485760 < providedSize then
    .error (.validation "chunkSize" "Chunk size must be between 1 and 10485760 bytes")
  else .ok providedSize

/-- C4.  Write-after-end: once the ended flag is set, every write fails
deterministically, with the same error for every input, and no data is
accepted: the Stream variant throws `Error: StreamBlockify: write after
end` before touching any state, and the part_015 Duplex variant emits a
WriteAfterEndError on the error channel and throws the same error, also
leaving the state untouched. -/
theorem c4_write_after_end (s : SBState) (c : TaggedBuf) (h : s.ended = true) :
    write s c = .error (.js "StreamBlockify: write after end") ∧
    writeD s c = ([Ev.error .writeAfterEnd], .error .writeAfterEnd) := by
  constructor
  · rw [write, if_pos h]
  · rw [writeD, if_pos h]

/-- Witness for c4_write_after_end on a concrete ended stream. -/
theorem c4_write_after_end_witness :
    (⟨4, bmInit, false, true, false, false, false⟩ : SBState).ended = true ∧
    (write ⟨4, bmInit, false, true, false, false, false⟩ ⟨some 0, [1, 2]⟩
        = .error (.js "StreamBlockify: write after end") ∧
     writeD ⟨4, bmInit, false, true, false, false, false⟩ ⟨some 0, [1, 2]⟩
        = ([Ev.error .writeAfterEnd], .error .writeAfterEnd)) :=
  ⟨rfl, c4_write_after_end ⟨4, bmInit, false, true, false, false, false⟩ ⟨some 0, [1, 2]⟩ rfl⟩

/-- C7 counterexample: constructing the Stream-based StreamBlockify with
size 0 — not a positive whole number — succeeds (its constructor performs
no validation), and the Duplex variant rejects the positive whole number
20971520 (its 10MB cap), both contradicting 'fails if and only if the
configured block size is not a positive whole number'. -/
theorem c7_counterexample :
    (mkStreamBlockify (some 0)).isOk = true ∧ ¬ (0 : ℚ) > 0 ∧
    (mkDuplexBlockify (some 20971520)).isOk = false ∧
    (0 : ℚ) < 20971520 ∧ (20971520 : ℚ).den = 1 := by
  refine ⟨rfl, by norm_num, ?_, by norm_num, by norm_num⟩
  rw [mkDuplexBlockify]
  rw [if_pos (Or.inr (by norm_num))]
  rfl

/-- C7 amended: only the Transform-based constructor implements the
claimed fail-fast rule — it fails exactly when the block size is missing,
not positive, or not a whole number; the Stream-based constructor accepts
every configuration without validation, and the Duplex constructor of
part_013 instead range-checks 1 ≤ size ≤ 10485760 (rejecting larger
positive integers, accepting non-integers in range). -/
theorem c7_fail_fast (b : Option ℚ) :
    ((mkTransformBlockify b).isOk = true ↔ ∃ v, b = some v ∧ 0 < v ∧ v.den = 1) ∧
    (mkStreamBlockify b).isOk = true ∧
    ((mkDuplexBlockify b).isOk = true ↔ 1 ≤ b.getD 512 ∧ b.getD 512 ≤ 10485760) := by
  refine ⟨?_, rfl, ?_⟩
  · cases b with
    | none =>
      constructor
      · intro h
        exact absurd h (by rw [mkTransformBlockify]; simp [Except.isOk, Except.toBool])
      · rintro ⟨v, hv, -, -⟩
        exact Option.noConfusion hv
    | some v =>
      rw [mkTransformBlockify]
      by_cases hc : v = 0 ∨ v ≤ 0 ∨ v.den ≠ 1
      · rw [if_pos hc]
        constructor
        · intro h
          exact absurd h (by simp [Except.isOk, Except.toBool])
        · rintro ⟨w, hw, hpos, hden⟩
          have hv : w = v := by injection hw with h; rw [h]
          subst hv
          rcases hc with h | h | h
          · rw [h] at hpos
            exact absurd hpos (lt_irrefl 0)
          · exact absurd hpos (not_lt.mpr h)
          · exact absurd hden h
      · rw [if_neg hc]
        push_neg at hc
        exact ⟨fun _ => ⟨v, rfl, hc.2.1, hc.2.2⟩, fun _ => rfl⟩
  · rw [mkDuplexBlockify]
    by_cases hc : b.getD 512 < 1 ∨ 10485760 < b.getD 512
    · rw [if_pos hc]
      constructor
      · intro h
        exact absurd h (by simp [Except.isOk, Except.toBool])
      · rintro ⟨h1, h2⟩
        rcases hc with h | h
        · exact absurd h1 (not_le.mpr h)
        · exact absurd h2 (not_le.mpr h)
    · rw [if_neg hc]
      push_neg at hc
      exact ⟨fun _ => hc, fun _ => rfl⟩

/-- Number of terminal events in a trace. -/
def countEnd (evs : List Ev) : Nat := evs.count Ev.endEv

/-- Whether an event is a data event. -/
def hasData : Ev → Bool
  | Ev.data _ => true
  | _ => false

/-- True when no data event follows a terminal event in the trace. -/
def noDataAfterEnd : List Ev → Bool
  | [] => true
  | Ev.endEv :: rest => rest.all (fun e => ! hasData e)
  | _ :: rest => noDataAfterEnd rest

/-- `_handleEvents` fires no data event, fires the terminal event exactly
when the `_isEnded` guard holds (buffer empty, ended, not yet emitted),
records it in `endEmitted`, and touches no other field. -/
theorem handleEvents_spec (s : SBState) :
    (handleEvents s).1.bm = s.bm ∧
    (handleEvents s).1.chunkSize = s.chunkSize ∧
    (handleEvents s).1.paused = s.paused ∧
    (handleEvents s).1.ended = s.ended ∧
    (handleEvents s).1.emitting = s.emitting ∧
    dataPayloads (handleEvents s).2 = [] ∧
    (Ev.endEv ∈ (handleEvents s).2
      ↔ s.bm.totalLength = 0 ∧ s.ended = true ∧ s.endEmitted = false) ∧
    ((handleEvents s).1.endEmitted = true
      ↔ (s.endEmitted = true ∨ Ev.endEv ∈ (handleEvents s).2)) ∧
    countEnd (handleEvents s).2 ≤ 1 ∧
    noDataAfterEnd (handleEvents s).2 = true := by
  rw [handleEvents]
  by_cases hd : s.needDrain = true
  · rw [if_pos hd]
    by_cases hg : ({ s with needDrain := false } : SBState).bm.totalLength = 0
        ∧ ({ s with needDrain := false } : SBState).ended = true
        ∧ ¬ ({ s with needDrain := false } : SBState).endEmitted = true
    · rw [if_pos hg]
      obtain ⟨hg1, hg2, hg3⟩ := hg
      refine ⟨rfl, rfl, rfl, rfl, rfl, by simp [dataPayloads], ?_, ?_, ?_, ?_⟩
      · simp only [List.mem_append, List.mem_singleton, List.mem_cons]
        constructor
        · intro _
          exact ⟨hg1, hg2, by simpa using hg3⟩
        · intro _
          simp
      · simp
      · simp [countEnd, List.count_cons, List.count_nil]
      · rfl
    · rw [if_neg hg]
      refine ⟨rfl, rfl, rfl, rfl, rfl, by simp [dataPayloads], ?_, ?_, ?_, ?_⟩
      · simp only [List.mem_singleton]
        constructor
        · intro h
          exact absurd h (by simp)
        · intro ⟨h1, h2, h3⟩
          exact absurd ⟨h1, h2, by simp [h3]⟩ hg
      · simp
      · simp [countEnd]
      · rfl
  · rw [if_neg hd]
    by_cases hg : s.bm.totalLength = 0 ∧ s.ended = true ∧ ¬ s.endEmitted = true
    · rw [if_pos hg]
      obtain ⟨hg1, hg2, hg3⟩ := hg
      refine ⟨rfl, rfl, rfl, rfl, rfl, by simp [dataPayloads], ?_, ?_, ?_, ?_⟩
      · simp only [List.nil_append, List.mem_singleton]
        constructor
        · intro _
          exact ⟨hg1, hg2, by simpa using hg3⟩
        · intro _
          trivial
      · simp
      · simp [countEnd]
      · rfl
    · rw [if_neg hg]
      refine ⟨rfl, rfl, rfl, rfl, rfl, rfl, ?_, ?_, ?_, ?_⟩
      · simp only [List.not_mem_nil]
        constructor
        · intro h
          exact absurd h (by simp)
        · intro ⟨h1, h2, h3⟩
          exact absurd ⟨h1, h2, by simp [h3]⟩ hg
      · simp
      · simp [countEnd]
      · rfl

theorem dataPayloads_append (a b : List Ev) :
    dataPayloads (a ++ b) = dataPayloads a ++ dataPayloads b := by
  simp [dataPayloads]

theorem dataPayloads_map_data (cs : List TaggedBuf) :
    dataPayloads (cs.map Ev.data) = cs.map TaggedBuf.bytes := by
  induction cs with
  | nil => rfl
  | cons c cs ih => simp [dataPayloads] at ih ⊢; exact ih

theorem countEnd_append (a b : List Ev) :
    countEnd (a ++ b) = countEnd a + countEnd b := by
  simp [countEnd, List.count_append]

theorem countEnd_map_data (cs : List TaggedBuf) : countEnd (cs.map Ev.data) = 0 := by
  induction cs with
  | nil => rfl
  | cons c cs ih => simpa [countEnd, List.count_cons] using ih

theorem endEv_not_mem_map_data (cs : List TaggedBuf) : Ev.endEv ∉ cs.map Ev.data := by
  intro h
  obtain ⟨c, _, hc⟩ := List.mem_map.mp h
  exact Ev.noConfusion hc

theorem noDataAfterEnd_cons_of_ne (e : Ev) (rest : List Ev) (h : e ≠ Ev.endEv) :
    noDataAfterEnd (e :: rest) = noDataAfterEnd rest := by
  cases e with
  | data b => rfl
  | drain => rfl
  | endEv => exact absurd rfl h
  | error x => rfl

theorem noDataAfterEnd_append_no_end (a rest : List Ev) (ha : Ev.endEv ∉ a) :
    noDataAfterEnd (a ++ rest) = noDataAfterEnd rest := by
  induction a with
  | nil => rfl
  | cons e es ih =>
    rw [List.cons_append, noDataAfterEnd_cons_of_ne e (es ++ rest)
      (fun h => ha (by rw [h]; simp))]
    exact ih (fun h => ha (List.mem_cons_of_mem e h))

theorem bmInv_init : bmInv (⟨[], 0, 0⟩ : BMState) := by decide

theorem unconsumed_empty : unconsumed (⟨[], 0, 0⟩ : BMState) = [] := rfl

theorem emitChunks_eq_noflush (s : SBState) (cs : List TaggedBuf) (bm1 : BMState)
    (hguard : ¬ (s.emitting = true ∨ s.paused = true))
    (heq : getChunks s.bm s.chunkSize = .ok (cs, bm1)) :
    emitChunks s false
      = ({ (handleEvents { s with emitting := true, bm := bm1 }).1 with emitting := false },
         cs.map Ev.data ++ [] ++ (handleEvents { s with emitting := true, bm := bm1 }).2) := by
  simp only [emitChunks]
  rw [if_neg hguard]
  rw [show getChunks ({ s with emitting := true } : SBState).bm
      ({ s with emitting := true } : SBState).chunkSize = Except.ok (cs, bm1) from heq]
  rfl

theorem emitChunks_eq_flush_none (s : SBState) (cs : List TaggedBuf) (bm1 bm2 : BMState)
    (hguard : ¬ (s.emitting = true ∨ s.paused = true))
    (heq : getChunks s.bm s.chunkSize = .ok (cs, bm1))
    (hrd : getRemainingData bm1 = (none, bm2)) :
    emitChunks s true
      = ({ (handleEvents { s with emitting := true, bm := bm2 }).1 with emitting := false },
         cs.map Ev.data ++ [] ++ (handleEvents { s with emitting := true, bm := bm2 }).2) := by
  simp only [emitChunks]
  rw [if_neg hguard]
  rw [show getChunks ({ s with emitting := true } : SBState).bm
      ({ s with emitting := true } : SBState).chunkSize = Except.ok (cs, bm1) from heq]
  dsimp only
  rw [show getRemainingData bm1 = (none, bm2) from hrd]
  rfl

theorem emitChunks_eq_flush_some (s : SBState) (cs : List TaggedBuf) (bm1 bm2 : BMState)
    (r : TaggedBuf) (hguard : ¬ (s.emitting = true ∨ s.paused = true))
    (heq : getChunks s.bm s.chunkSize = .ok (cs, bm1))
    (hrd : getRemainingData bm1 = (some r, bm2)) :
    emitChunks s true
      = ({ (handleEvents { s with emitting := true, bm := clear bm2 }).1 with
             emitting := false },
         cs.map Ev.data ++ [Ev.data r]
           ++ (handleEvents { s with emitting := true, bm := clear bm2 }).2) := by
  simp only [emitChunks]
  rw [if_neg hguard]
  rw [show getChunks ({ s with emitting := true } : SBState).bm
      ({ s with emitting := true } : SBState).chunkSize = Except.ok (cs, bm1) from heq]
  dsimp only
  rw [show getRemainingData bm1 = (some r, bm2) from hrd]
  rfl

/-- One full `_emitChunks` pass of the Stream orchestrator, for a positive
chunk size and an invariant store: it preserves the invariant and every
flag except `endEmitted`, emits the carved blocks followed (when flushing)
by the remainder so that the concatenated data payloads plus the leftover
bytes reproduce the buffered bytes, emits only full-size blocks when not
flushing, leaves the store below one block (empty after a flush), fires the
terminal event at most once — last, only when ended with an empty store and
not yet emitted — and is a no-op while paused. -/
theorem emitChunks_spec (s : SBState) (f : Bool)
    (hem : s.emitting = false) (hcs : 0 < s.chunkSize) (hinv : bmInv s.bm) :
    bmInv (emitChunks s f).1.bm ∧
    (emitChunks s f).1.emitting = false ∧
    (emitChunks s f).1.chunkSize = s.chunkSize ∧
    (emitChunks s f).1.ended = s.ended ∧
    (emitChunks s f).1.paused = s.paused ∧
    (dataPayloads (emitChunks s f).2).flatten ++ unconsumed (emitChunks s f).1.bm
      = unconsumed s.bm ∧
    (f = false → ∀ p ∈ dataPayloads (emitChunks s f).2, p.length = s.chunkSize.toNat) ∧
    ((emitChunks s f).1.endEmitted = true
      ↔ (s.endEmitted = true ∨ Ev.endEv ∈ (emitChunks s f).2)) ∧
    (Ev.endEv ∈ (emitChunks s f).2
      → s.endEmitted = false ∧ s.ended = true ∧ (emitChunks s f).1.bm.totalLength = 0) ∧
    countEnd (emitChunks s f).2 ≤ 1 ∧
    noDataAfterEnd (emitChunks s f).2 = true ∧
    (s.endEmitted = true → s.bm.totalLength = 0
      → dataPayloads (emitChunks s f).2 = [] ∧ Ev.endEv ∉ (emitChunks s f).2) ∧
    (f = true → s.paused = false → (emitChunks s f).1.bm.totalLength = 0) ∧
    (s.paused = false → f = false
      → (emitChunks s f).1.bm.totalLength < s.chunkSize.toNat) ∧
    (s.paused = false → s.ended = true → s.endEmitted = false → f = true
      → Ev.endEv ∈ (emitChunks s f).2) := by
  by_cases hpa : s.paused = true
  · have hrun : emitChunks s f = (s, []) := by
      rw [emitChunks, if_pos (Or.inr hpa)]
    rw [hrun]
    refine ⟨hinv, hem, rfl, rfl, rfl, by simp [dataPayloads], ?_, by simp, by simp,
      by simp [countEnd], rfl, ?_, ?_, ?_, ?_⟩
    · intro _ p hp
      simp [dataPayloads] at hp
    · intro _ _
      exact ⟨by simp [dataPayloads], by simp⟩
    · intro _ hpf
      simp [hpf] at hpa
    · intro hpf
      simp [hpf] at hpa
    · intro hpf
      simp [hpf] at hpa
  · have hguard : ¬ (s.emitting = true ∨ s.paused = true) := by
      intro hor
      rcases hor with h | h
      · rw [hem] at h
        exact absurd h (by simp)
      · exact hpa h
    have hpf : s.paused = false := by
      cases hps : s.paused with
      | false => rfl
      | true => exact absurd hps hpa
    obtain ⟨cs, bm1, heq, hinv1, hlen1, hflat1, hlt1, hempty1⟩ :=
      getChunks_spec s.bm s.chunkSize hinv hcs
    have heq' : getChunks ({ s with emitting := true } : SBState).bm
        ({ s with emitting := true } : SBState).chunkSize = .ok (cs, bm1) := heq
    have hcs1 : 0 < s.chunkSize.toNat := by omega
    have hcs_empty : s.endEmitted = true → s.bm.totalLength = 0 → cs = [] := by
      intro _ h0
      exact hempty1 (by omega)
    cases f with
    | false =>
      have hrun := emitChunks_eq_noflush s cs bm1 hguard heq
      obtain ⟨e1, e2, e3, e4, e5, e6, e7, e8, e9, e10⟩ :=
        handleEvents_spec { s with emitting := true, bm := bm1 }
      have hmem : Ev.endEv ∈ (cs.map Ev.data ++ []
            ++ (handleEvents { s with emitting := true, bm := bm1 }).2)
          ↔ Ev.endEv ∈ (handleEvents { s with emitting := true, bm := bm1 }).2 := by
        simp [List.mem_append, endEv_not_mem_map_data]
      have hdp : dataPayloads (cs.map Ev.data ++ []
            ++ (handleEvents { s with emitting := true, bm := bm1 }).2)
          = cs.map TaggedBuf.bytes := by
        rw [dataPayloads_append, dataPayloads_append, dataPayloads_map_data, e6]
        simp [dataPayloads]
      have H1 : bmInv (emitChunks s false).1.bm := by
        rw [hrun]
        show bmInv (handleEvents { s with emitting := true, bm := bm1 }).1.bm
        rw [e1]
        exact hinv1
      have H2 : (emitChunks s false).1.emitting = false := by
        rw [hrun]
      have H3 : (emitChunks s false).1.chunkSize = s.chunkSize := by
        rw [hrun]
        show (handleEvents { s with emitting := true, bm := bm1 }).1.chunkSize = s.chunkSize
        rw [e2]
      have H4 : (emitChunks s false).1.ended = s.ended := by
        rw [hrun]
        show (handleEvents { s with emitting := true, bm := bm1 }).1.ended = s.ended
        rw [e4]
      have H5 : (emitChunks s false).1.paused = s.paused := by
        rw [hrun]
        show (handleEvents { s with emitting := true, bm := bm1 }).1.paused = s.paused
        rw [e3]
      have H6 : (dataPayloads (emitChunks s false).2).flatten
          ++ unconsumed (emitChunks s false).1.bm = unconsumed s.bm := by
        rw [hrun]
        show (dataPayloads (cs.map Ev.data ++ []
            ++ (handleEvents { s with emitting := true, bm := bm1 }).2)).flatten
          ++ unconsumed (handleEvents { s with emitting := true, bm := bm1 }).1.bm
          = unconsumed s.bm
        rw [hdp, e1]
        exact hflat1
      have H7 : false = false → ∀ p ∈ dataPayloads (emitChunks s false).2,
          p.length = s.chunkSize.toNat := by
        intro _ p hp
        rw [hrun] at hp
        rw [show ((({ (handleEvents { s with emitting := true, bm := bm1 }).1 with
            emitting := false } : SBState),
            cs.map Ev.data ++ []
              ++ (handleEvents { s with emitting := true, bm := bm1 }).2)).2
          = cs.map Ev.data ++ []
              ++ (handleEvents { s with emitting := true, bm := bm1 }).2 from rfl, hdp] at hp
        obtain ⟨c, hc, hcp⟩ := List.mem_map.mp hp
        rw [← hcp]
        exact (hlen1 c hc).2
      have H8 : (emitChunks s false).1.endEmitted = true
          ↔ (s.endEmitted = true ∨ Ev.endEv ∈ (emitChunks s false).2) := by
        rw [hrun]
        show (handleEvents { s with emitting := true, bm := bm1 }).1.endEmitted = true
          ↔ (s.endEmitted = true ∨ Ev.endEv ∈ (cs.map Ev.data ++ []
              ++ (handleEvents { s with emitting := true, bm := bm1 }).2))
        rw [hmem]
        exact e8
      have H9 : Ev.endEv ∈ (emitChunks s false).2
          → s.endEmitted = false ∧ s.ended = true
            ∧ (emitChunks s false).1.bm.totalLength = 0 := by
        intro hin
        rw [hrun] at hin
        have hin3 : Ev.endEv ∈ (handleEvents { s with emitting := true, bm := bm1 }).2 :=
          hmem.mp hin
        obtain ⟨hA, hB, hC⟩ := e7.mp hin3
        refine ⟨hC, hB, ?_⟩
        rw [hrun]
        show (handleEvents { s with emitting := true, bm := bm1 }).1.bm.totalLength = 0
        rw [e1]
        exact hA
      have H10 : countEnd (emitChunks s false).2 ≤ 1 := by
        rw [hrun]
        show countEnd (cs.map Ev.data ++ []
            ++ (handleEvents { s with emitting := true, bm := bm1 }).2) ≤ 1
        rw [countEnd_append, countEnd_append, countEnd_map_data]
        have hz : countEnd ([] : List Ev) = 0 := rfl
        omega
      have H11 : noDataAfterEnd (emitChunks s false).2 = true := by
        rw [hrun]
        show noDataAfterEnd (cs.map Ev.data ++ []
            ++ (handleEvents { s with emitting := true, bm := bm1 }).2) = true
        rw [noDataAfterEnd_append_no_end _ _ (by simp [endEv_not_mem_map_data])]
        exact e10
      have H12 : s.endEmitted = true → s.bm.totalLength = 0
          → dataPayloads (emitChunks s false).2 = []
            ∧ Ev.endEv ∉ (emitChunks s false).2 := by
        intro hee h0
        constructor
        · rw [hrun]
          show dataPayloads (cs.map Ev.data ++ []
              ++ (handleEvents { s with emitting := true, bm := bm1 }).2) = []
          rw [hdp, hcs_empty hee h0]
          rfl
        · intro hin
          rw [hrun] at hin
          obtain ⟨-, -, hC⟩ := e7.mp (hmem.mp hin)
          have : s.endEmitted = false := hC
          rw [hee] at this
          exact Bool.noConfusion this
      have H13 : false = true → s.paused = false
          → (emitChunks s false).1.bm.totalLength = 0 :=
        fun h => Bool.noConfusion h
      have H14 : s.paused = false → false = false
          → (emitChunks s false).1.bm.totalLength < s.chunkSize.toNat := by
        intro _ _
        rw [hrun]
        show (handleEvents { s with emitting := true, bm := bm1 }).1.bm.totalLength
          < s.chunkSize.toNat
        rw [e1]
        exact hlt1
      have H15 : s.paused = false → s.ended = true → s.endEmitted = false
          → false = true → Ev.endEv ∈ (emitChunks s false).2 :=
        fun _ _ _ h => Bool.noConfusion h
      exact ⟨H1, H2, H3, H4, H5, H6, H7, H8, H9, H10, H11, H12, H13, H14, H15⟩
    | true =>
      obtain ⟨r1, r2, r3, r4, r5⟩ := getRemainingData_spec bm1 hinv1
      by_cases hz : bm1.totalLength = 0
      · have hrd : getRemainingData bm1 = (none, (getRemainingData bm1).2) := by
          rw [← r4 hz]
        have hrun := emitChunks_eq_flush_none s cs bm1 ((getRemainingData bm1).2)
          hguard heq hrd
        obtain ⟨e1, e2, e3, e4, e5, e6, e7, e8, e9, e10⟩ :=
          handleEvents_spec { s with emitting := true, bm := (getRemainingData bm1).2 }
        have hmem : Ev.endEv ∈ (cs.map Ev.data ++ []
              ++ (handleEvents { s with emitting := true, bm := (getRemainingData bm1).2 }).2)
            ↔ Ev.endEv ∈ (handleEvents { s with emitting := true, bm := (getRemainingData bm1).2 }).2 := by
          simp [List.mem_append, endEv_not_mem_map_data]
        have hdp : dataPayloads (cs.map Ev.data ++ []
              ++ (handleEvents { s with emitting := true, bm := (getRemainingData bm1).2 }).2)
            = cs.map TaggedBuf.bytes := by
          rw [dataPayloads_append, dataPayloads_append, dataPayloads_map_data, e6]
          simp [dataPayloads]
        have hT0 : ({ s with emitting := true, bm := (getRemainingData bm1).2 } : SBState).bm.totalLength = 0 := by
          show (getRemainingData bm1).2.totalLength = 0
          rw [r3]
          exact hz
        have H1 : bmInv (emitChunks s true).1.bm := by
          rw [hrun]
          show bmInv (handleEvents { s with emitting := true, bm := (getRemainingData bm1).2 }).1.bm
          rw [e1]
          exact r1
        have H2 : (emitChunks s true).1.emitting = false := by
          rw [hrun]
        have H3 : (emitChunks s true).1.chunkSize = s.chunkSize := by
          rw [hrun]
          show (handleEvents { s with emitting := true, bm := (getRemainingData bm1).2 }).1.chunkSize = s.chunkSize
          rw [e2]
        have H4 : (emitChunks s true).1.ended = s.ended := by
          rw [hrun]
          show (handleEvents { s with emitting := true, bm := (getRemainingData bm1).2 }).1.ended = s.ended
          rw [e4]
        have H5 : (emitChunks s true).1.paused = s.paused := by
          rw [hrun]
          show (handleEvents { s with emitting := true, bm := (getRemainingData bm1).2 }).1.paused = s.paused
          rw [e3]
        have H6 : (dataPayloads (emitChunks s true).2).flatten
            ++ unconsumed (emitChunks s true).1.bm = unconsumed s.bm := by
          rw [hrun]
          show (dataPayloads (cs.map Ev.data ++ []
              ++ (handleEvents { s with emitting := true, bm := (getRemainingData bm1).2 }).2)).flatten
            ++ unconsumed (handleEvents { s with emitting := true, bm := (getRemainingData bm1).2 }).1.bm
            = unconsumed s.bm
          rw [hdp, e1]
          show (cs.map TaggedBuf.bytes).flatten
            ++ unconsumed (getRemainingData bm1).2 = unconsumed s.bm
          rw [r2]
          exact hflat1
        have H7 : (true : Bool) = false → ∀ p ∈ dataPayloads (emitChunks s true).2,
            p.length = s.chunkSize.toNat := fun h => Bool.noConfusion h
        have H8 : (emitChunks s true).1.endEmitted = true
            ↔ (s.endEmitted = true ∨ Ev.endEv ∈ (emitChunks s true).2) := by
          rw [hrun]
          show (handleEvents { s with emitting := true, bm := (getRemainingData bm1).2 }).1.endEmitted = true
            ↔ (s.endEmitted = true ∨ Ev.endEv ∈ (cs.map Ev.data ++ []
              ++ (handleEvents { s with emitting := true, bm := (getRemainingData bm1).2 }).2))
          rw [hmem]
          exact e8
        have H9 : Ev.endEv ∈ (emitChunks s true).2
            → s.endEmitted = false ∧ s.ended = true
              ∧ (emitChunks s true).1.bm.totalLength = 0 := by
          intro hin
          rw [hrun] at hin
          obtain ⟨hA, hB, hC⟩ := e7.mp (hmem.mp hin)
          refine ⟨hC, hB, ?_⟩
          rw [hrun]
          show (handleEvents { s with emitting := true, bm := (getRemainingData bm1).2 }).1.bm.totalLength = 0
          rw [e1]
          exact hA
        have H10 : countEnd (emitChunks s true).2 ≤ 1 := by
          rw [hrun]
          show countEnd (cs.map Ev.data ++ []
              ++ (handleEvents { s with emitting := true, bm := (getRemainingData bm1).2 }).2) ≤ 1
          rw [countEnd_append, countEnd_append, countEnd_map_data]
          have hz2 : countEnd ([] : List Ev) = 0 := rfl
          omega
        have H11 : noDataAfterEnd (emitChunks s true).2 = true := by
          rw [hrun]
          show noDataAfterEnd (cs.map Ev.data ++ []
              ++ (handleEvents { s with emitting := true, bm := (getRemainingData bm1).2 }).2) = true
          rw [noDataAfterEnd_append_no_end _ _ (by simp [endEv_not_mem_map_data])]
          exact e10
        have H12 : s.endEmitted = true → s.bm.totalLength = 0
            → dataPayloads (emitChunks s true).2 = []
              ∧ Ev.endEv ∉ (emitChunks s true).2 := by
          intro hee h0
          constructor
          · rw [hrun]
            show dataPayloads (cs.map Ev.data ++ []
                ++ (handleEvents { s with emitting := true, bm := (getRemainingData bm1).2 }).2) = []
            rw [hdp, hcs_empty hee h0]
            rfl
          · intro hin
            rw [hrun] at hin
            obtain ⟨-, -, hC⟩ := e7.mp (hmem.mp hin)
            have hcontra : s.endEmitted = false := hC
            rw [hee] at hcontra
            exact Bool.noConfusion hcontra
        have H13 : (true : Bool) = true → s.paused = false
            → (emitChunks s true).1.bm.totalLength = 0 := by
          intro _ _
          rw [hrun]
          show (handleEvents { s with emitting := true, bm := (getRemainingData bm1).2 }).1.bm.totalLength = 0
          rw [e1]
          exact hT0
        have H14 : s.paused = false → (true : Bool) = false
            → (emitChunks s true).1.bm.totalLength < s.chunkSize.toNat :=
          fun _ h => Bool.noConfusion h
        have H15 : s.paused = false → s.ended = true → s.endEmitted = false
            → (true : Bool) = true → Ev.endEv ∈ (emitChunks s true).2 := by
          intro _ he hne _
          rw [hrun]
          refine hmem.mpr (e7.mpr ⟨hT0, he, hne⟩)
        exact ⟨H1, H2, H3, H4, H5, H6, H7, H8, H9, H10, H11, H12, H13, H14, H15⟩
      · obtain ⟨r, hsome, hrb⟩ := r5 hz
        have hrd : getRemainingData bm1 = (some r, (getRemainingData bm1).2) := by
          rw [← hsome]
        have hrun := emitChunks_eq_flush_some s cs bm1 ((getRemainingData bm1).2) r
          hguard heq hrd
        obtain ⟨e1, e2, e3, e4, e5, e6, e7, e8, e9, e10⟩ :=
          handleEvents_spec { s with emitting := true, bm := clear ((getRemainingData bm1).2) }
        have hmem : Ev.endEv ∈ (cs.map Ev.data ++ [Ev.data r]
              ++ (handleEvents { s with emitting := true, bm := clear ((getRemainingData bm1).2) }).2)
            ↔ Ev.endEv ∈ (handleEvents { s with emitting := true, bm := clear ((getRemainingData bm1).2) }).2 := by
          simp [List.mem_append, endEv_not_mem_map_data]
        have hdp : dataPayloads (cs.map Ev.data ++ [Ev.data r]
              ++ (handleEvents { s with emitting := true, bm := clear ((getRemainingData bm1).2) }).2)
            = cs.map TaggedBuf.bytes ++ [r.bytes] := by
          rw [dataPayloads_append, dataPayloads_append, dataPayloads_map_data, e6]
          simp [dataPayloads]
        have hT0 : ({ s with emitting := true, bm := clear ((getRemainingData bm1).2) } : SBState).bm.totalLength = 0 := rfl
        have H1 : bmInv (emitChunks s true).1.bm := by
          rw [hrun]
          show bmInv (handleEvents { s with emitting := true, bm := clear ((getRemainingData bm1).2) }).1.bm
          rw [e1]
          exact bmInv_init
        have H2 : (emitChunks s true).1.emitting = false := by
          rw [hrun]
        have H3 : (emitChunks s true).1.chunkSize = s.chunkSize := by
          rw [hrun]
          show (handleEvents { s with emitting := true, bm := clear ((getRemainingData bm1).2) }).1.chunkSize = s.chunkSize
          rw [e2]
        have H4 : (emitChunks s true).1.ended = s.ended := by
          rw [hrun]
          show (handleEvents { s with emitting := true, bm := clear ((getRemainingData bm1).2) }).1.ended = s.ended
          rw [e4]
        have H5 : (emitChunks s true).1.paused = s.paused := by
          rw [hrun]
          show (handleEvents { s with emitting := true, bm := clear ((getRemainingData bm1).2) }).1.paused = s.paused
          rw [e3]
        have H6 : (dataPayloads (emitChunks s true).2).flatten
            ++ unconsumed (emitChunks s true).1.bm = unconsumed s.bm := by
          rw [hrun]
          show (dataPayloads (cs.map Ev.data ++ [Ev.data r]
              ++ (handleEvents { s with emitting := true, bm := clear ((getRemainingData bm1).2) }).2)).flatten
            ++ unconsumed (handleEvents { s with emitting := true, bm := clear ((getRemainingData bm1).2) }).1.bm
            = unconsumed s.bm
          rw [hdp, e1]
          show (cs.map TaggedBuf.bytes ++ [r.bytes]).flatten ++ ([] : List Nat)
            = unconsumed s.bm
          rw [List.append_nil]
          have hfl : (cs.map TaggedBuf.bytes ++ [r.bytes]).flatten
              = (cs.map TaggedBuf.bytes).flatten ++ r.bytes := by
            simp
          rw [hfl, hrb]
          exact hflat1
        have H7 : (true : Bool) = false → ∀ p ∈ dataPayloads (emitChunks s true).2,
            p.length = s.chunkSize.toNat := fun h => Bool.noConfusion h
        have H8 : (emitChunks s true).1.endEmitted = true
            ↔ (s.endEmitted = true ∨ Ev.endEv ∈ (emitChunks s true).2) := by
          rw [hrun]
          show (handleEvents { s with emitting := true, bm := clear ((getRemainingData bm1).2) }).1.endEmitted = true
            ↔ (s.endEmitted = true ∨ Ev.endEv ∈ (cs.map Ev.data ++ [Ev.data r]
              ++ (handleEvents { s with emitting := true, bm := clear ((getRemainingData bm1).2) }).2))
          rw [hmem]
          exact e8
        have H9 : Ev.endEv ∈ (emitChunks s true).2
            → s.endEmitted = false ∧ s.ended = true
              ∧ (emitChunks s true).1.bm.totalLength = 0 := by
          intro hin
          rw [hrun] at hin
          obtain ⟨hA, hB, hC⟩ := e7.mp (hmem.mp hin)
          refine ⟨hC, hB, ?_⟩
          rw [hrun]
          show (handleEvents { s with emitting := true, bm := clear ((getRemainingData bm1).2) }).1.bm.totalLength = 0
          rw [e1]
          exact hT0
        have H10 : countEnd (emitChunks s true).2 ≤ 1 := by
          rw [hrun]
          show countEnd (cs.map Ev.data ++ [Ev.data r]
              ++ (handleEvents { s with emitting := true, bm := clear ((getRemainingData bm1).2) }).2) ≤ 1
          rw [countEnd_append, countEnd_append, countEnd_map_data]
          have hz2 : countEnd ([Ev.data r]) = 0 := rfl
          omega
        have H11 : noDataAfterEnd (emitChunks s true).2 = true := by
          rw [hrun]
          show noDataAfterEnd (cs.map Ev.data ++ [Ev.data r]
              ++ (handleEvents { s with emitting := true, bm := clear ((getRemainingData bm1).2) }).2) = true
          rw [noDataAfterEnd_append_no_end _ _ (by simp [endEv_not_mem_map_data])]
          exact e10
        have H12 : s.endEmitted = true → s.bm.totalLength = 0
            → dataPayloads (emitChunks s true).2 = []
              ∧ Ev.endEv ∉ (emitChunks s true).2 := by
          intro _ h0
          exfalso
          have hnil : unconsumed s.bm = [] :=
            List.eq_nil_of_length_eq_zero (by rw [← hinv.2]; exact h0)
          have hL := congrArg List.length hflat1
          rw [hnil, List.length_append] at hL
          simp only [List.length_nil] at hL
          have hL2 : (unconsumed bm1).length = 0 := by omega
          exact hz (by rw [hinv1.2]; exact hL2)
        have H13 : (true : Bool) = true → s.paused = false
            → (emitChunks s true).1.bm.totalLength = 0 := by
          intro _ _
          rw [hrun]
          show (handleEvents { s with emitting := true, bm := clear ((getRemainingData bm1).2) }).1.bm.totalLength = 0
          rw [e1]
          exact hT0
        have H14 : s.paused = false → (true : Bool) = false
            → (emitChunks s true).1.bm.totalLength < s.chunkSize.toNat :=
          fun _ h => Bool.noConfusion h
        have H15 : s.paused = false → s.ended = true → s.endEmitted = false
            → (true : Bool) = true → Ev.endEv ∈ (emitChunks s true).2 := by
          intro _ he hne _
          rw [hrun]
          refine hmem.mpr (e7.mpr ⟨hT0, he, hne⟩)
        exact ⟨H1, H2, H3, H4, H5, H6, H7, H8, H9, H10, H11, H12, H13, H14, H15⟩

/-- C5 counterexample: in the part_015 Duplex variant a write of a
non-empty segment while paused does NOT add the segment to the Byte Store:
the write is refused (needDrain set, false returned) and the held byte
count stays 0 instead of growing by the segment length. -/
theorem c5_counterexample :
    (⟨4, bmInit, true, false, false, false, false⟩ : SBState).paused = true ∧
    ([1] : List Nat) ≠ [] ∧
    writeD ⟨4, bmInit, true, false, false, false, false⟩ ⟨some 0, [1]⟩
      = ([], .ok (⟨4, bmInit, true, false, false, false, true⟩, false)) ∧
    (⟨4, bmInit, true, false, false, false, true⟩ : SBState).bm.totalLength = 0 := by
  decide

/-- C5 amended.  Stream variant: a write of a non-empty segment while
paused (and not ended) still buffers — the held byte count grows by the
segment length, the unconsumed bytes get the segment appended — and fires
no event at all; a subsequent resume() emits exactly the pending complete
blocks (all of block size, in original input order: their concatenation
plus the leftover reproduces the buffered bytes) until fewer than one
block remains.  part_015 Duplex variant: the same write is instead refused
without buffering (needDrain set, false returned, store untouched). -/
theorem c5_paused_buffering (s : SBState) (c : TaggedBuf)
    (hp : s.paused = true) (he : s.ended = false) (hc : c.bytes ≠ [])
    (hcs : 0 < s.chunkSize) (hem : s.emitting = false) (hinv : bmInv s.bm) :
    (∃ s1 ret, write s c = .ok (s1, ret, ([] : List Ev)) ∧
       s1.bm = addBuffer s.bm c ∧
       s1.bm.totalLength = s.bm.totalLength + c.bytes.length ∧
       unconsumed s1.bm = unconsumed s.bm ++ c.bytes ∧
       s1.paused = true ∧
       (dataPayloads (resumeOp s1).2).flatten ++ unconsumed (resumeOp s1).1.bm
           = unconsumed s1.bm ∧
       (∀ p ∈ dataPayloads (resumeOp s1).2, p.length = s.chunkSize.toNat) ∧
       (resumeOp s1).1.bm.totalLength < s.chunkSize.toNat) ∧
    writeD s c = ([], .ok ({ s with needDrain := true }, false)) := by
  obtain ⟨a1, a2, a3⟩ := addBuffer_spec s.bm c hinv
  have hlen0 : c.bytes.length ≠ 0 := by
    intro h
    exact hc (List.eq_nil_of_length_eq_zero h)
  have hnotended : ¬ s.ended = true := by
    rw [he]
    simp
  constructor
  · by_cases hth : (({ s with bm := addBuffer s.bm c } : SBState)).chunkSize
        ≤ ((({ s with bm := addBuffer s.bm c } : SBState)).bm.totalLength : Int)
    · have hw : write s c
          = .ok ({ s with bm := addBuffer s.bm c, needDrain := true }, false, ([] : List Ev)) := by
        rw [write, if_neg hnotended, if_pos hlen0, if_pos hth, if_pos (show
          (({ s with bm := addBuffer s.bm c } : SBState)).paused = true from hp)]
      refine ⟨{ s with bm := addBuffer s.bm c, needDrain := true }, false, hw, rfl, ?_, ?_, hp, ?_, ?_, ?_⟩
      · exact a3
      · exact a2
      · have hres : resumeOp ({ s with bm := addBuffer s.bm c, needDrain := true } : SBState)
            = emitChunks { s with bm := addBuffer s.bm c, needDrain := true, paused := false }
                false := rfl
        obtain ⟨E1, E2, E3, E4, E5, E6, E7, E8, E9, E10, E11, E12, E13, E14, E15⟩ :=
          emitChunks_spec { s with bm := addBuffer s.bm c, needDrain := true, paused := false }
            false hem hcs a1
        rw [hres]
        exact E6
      · have hres : resumeOp ({ s with bm := addBuffer s.bm c, needDrain := true } : SBState)
            = emitChunks { s with bm := addBuffer s.bm c, needDrain := true, paused := false }
                false := rfl
        obtain ⟨E1, E2, E3, E4, E5, E6, E7, E8, E9, E10, E11, E12, E13, E14, E15⟩ :=
          emitChunks_spec { s with bm := addBuffer s.bm c, needDrain := true, paused := false }
            false hem hcs a1
        rw [hres]
        exact E7 rfl
      · have hres : resumeOp ({ s with bm := addBuffer s.bm c, needDrain := true } : SBState)
            = emitChunks { s with bm := addBuffer s.bm c, needDrain := true, paused := false }
                false := rfl
        obtain ⟨E1, E2, E3, E4, E5, E6, E7, E8, E9, E10, E11, E12, E13, E14, E15⟩ :=
          emitChunks_spec { s with bm := addBuffer s.bm c, needDrain := true, paused := false }
            false hem hcs a1
        rw [hres]
        exact E14 rfl rfl
    · have hw : write s c
          = .ok ({ s with bm := addBuffer s.bm c }, true, ([] : List Ev)) := by
        rw [write, if_neg hnotended, if_pos hlen0, if_neg hth]
      refine ⟨{ s with bm := addBuffer s.bm c }, true, hw, rfl, ?_, ?_, hp, ?_, ?_, ?_⟩
      · exact a3
      · exact a2
      · have hres : resumeOp ({ s with bm := addBuffer s.bm c } : SBState)
            = emitChunks { s with bm := addBuffer s.bm c, paused := false } false := rfl
        obtain ⟨E1, E2, E3, E4, E5, E6, E7, E8, E9, E10, E11, E12, E13, E14, E15⟩ :=
          emitChunks_spec { s with bm := addBuffer s.bm c, paused := false } false hem hcs a1
        rw [hres]
        exact E6
      · have hres : resumeOp ({ s with bm := addBuffer s.bm c } : SBState)
            = emitChunks { s with bm := addBuffer s.bm c, paused := false } false := rfl
        obtain ⟨E1, E2, E3, E4, E5, E6, E7, E8, E9, E10, E11, E12, E13, E14, E15⟩ :=
          emitChunks_spec { s with bm := addBuffer s.bm c, paused := false } false hem hcs a1
        rw [hres]
        exact E7 rfl
      · have hres : resumeOp ({ s with bm := addBuffer s.bm c } : SBState)
            = emitChunks { s with bm := addBuffer s.bm c, paused := false } false := rfl
        obtain ⟨E1, E2, E3, E4, E5, E6, E7, E8, E9, E10, E11, E12, E13, E14, E15⟩ :=
          emitChunks_spec { s with bm := addBuffer s.bm c, paused := false } false hem hcs a1
        rw [hres]
        exact E14 rfl rfl
  · rw [writeD, if_neg hnotended, if_pos hp]

/-- Witness for c5_paused_buffering at a concrete paused stream. -/
theorem c5_paused_buffering_witness :
    (⟨2, ⟨[⟨some 0, [7]⟩], 1, 0⟩, true, false, false, false, false⟩ : SBState).paused = true ∧
    (⟨2, ⟨[⟨some 0, [7]⟩], 1, 0⟩, true, false, false, false, false⟩ : SBState).ended = false ∧
    (⟨some 1, [8, 9]⟩ : TaggedBuf).bytes ≠ [] ∧
    (0 : Int) < 2 ∧
    (⟨2, ⟨[⟨some 0, [7]⟩], 1, 0⟩, true, false, false, false, false⟩ : SBState).emitting = false ∧
    bmInv (⟨2, ⟨[⟨some 0, [7]⟩], 1, 0⟩, true, false, false, false, false⟩ : SBState).bm ∧
    ((∃ s1 ret, write ⟨2, ⟨[⟨some 0, [7]⟩], 1, 0⟩, true, false, false, false, false⟩
          ⟨some 1, [8, 9]⟩ = .ok (s1, ret, ([] : List Ev)) ∧
       s1.bm = addBuffer (⟨2, ⟨[⟨some 0, [7]⟩], 1, 0⟩, true, false, false, false,
           false⟩ : SBState).bm ⟨some 1, [8, 9]⟩ ∧
       s1.bm.totalLength = (⟨2, ⟨[⟨some 0, [7]⟩], 1, 0⟩, true, false, false, false,
           false⟩ : SBState).bm.totalLength + (⟨some 1, [8, 9]⟩ : TaggedBuf).bytes.length ∧
       unconsumed s1.bm = unconsumed (⟨2, ⟨[⟨some 0, [7]⟩], 1, 0⟩, true, false, false,
           false, false⟩ : SBState).bm ++ (⟨some 1, [8, 9]⟩ : TaggedBuf).bytes ∧
       s1.paused = true ∧
       (dataPayloads (resumeOp s1).2).flatten ++ unconsumed (resumeOp s1).1.bm
           = unconsumed s1.bm ∧
       (∀ p ∈ dataPayloads (resumeOp s1).2,
         p.length = (⟨2, ⟨[⟨some 0, [7]⟩], 1, 0⟩, true, false, false, false,
           false⟩ : SBState).chunkSize.toNat) ∧
       (resumeOp s1).1.bm.totalLength
           < (⟨2, ⟨[⟨some 0, [7]⟩], 1, 0⟩, true, false, false, false,
               false⟩ : SBState).chunkSize.toNat) ∧
     writeD ⟨2, ⟨[⟨some 0, [7]⟩], 1, 0⟩, true, false, false, false, false⟩ ⟨some 1, [8, 9]⟩
       = ([], .ok ({ (⟨2, ⟨[⟨some 0, [7]⟩], 1, 0⟩, true, false, false, false,
           false⟩ : SBState) with needDrain := true }, false))) :=
  ⟨rfl, rfl, by decide, by decide, rfl, by decide,
    c5_paused_buffering ⟨2, ⟨[⟨some 0, [7]⟩], 1, 0⟩, true, false, false, false, false⟩
      ⟨some 1, [8, 9]⟩ rfl rfl (by decide) (by decide) rfl (by decide)⟩

theorem mem_dataPayloads (b : List Ev) (x : TaggedBuf) (h : Ev.data x ∈ b) :
    x.bytes ∈ dataPayloads b :=
  List.mem_filterMap.mpr ⟨Ev.data x, h, rfl⟩

theorem hasData_eq_false_of_dataPayloads_nil (b : List Ev) (h : dataPayloads b = [])
    (e : Ev) (he : e ∈ b) : hasData e = false := by
  cases e with
  | data y =>
    have hm : y.bytes ∈ dataPayloads b := mem_dataPayloads b y he
    rw [h] at hm
    exact absurd hm (List.not_mem_nil _)
  | drain => rfl
  | endEv => rfl
  | error z => rfl

theorem noDataAfterEnd_append_of_no_data (a b : List Ev) (ha : noDataAfterEnd a = true)
    (hb : ∀ e ∈ b, hasData e = false) (hbe : noDataAfterEnd b = true) :
    noDataAfterEnd (a ++ b) = true := by
  induction a with
  | nil => exact hbe
  | cons e es ih =>
    by_cases hend : e = Ev.endEv
    · subst hend
      show (es ++ b).all (fun x => ! hasData x) = true
      rw [List.all_append]
      have h1 : es.all (fun x => ! hasData x) = true := ha
      have h2 : b.all (fun x => ! hasData x) = true := by
        rw [List.all_eq_true]
        intro x hx
        rw [hb x hx]
        rfl
      rw [h1, h2]
      rfl
    · rw [List.cons_append, noDataAfterEnd_cons_of_ne e (es ++ b) hend]
      exact ih (by rw [← noDataAfterEnd_cons_of_ne e es hend]; exact ha)

theorem countEnd_eq_zero_of_not_mem (a : List Ev) (h : Ev.endEv ∉ a) : countEnd a = 0 := by
  rw [countEnd]
  exact List.count_eq_zero.mpr h

/-- State-manager invariant of the Stream orchestrator between public calls:
no emission pass is in flight, the Byte Store invariant holds, and once the
terminal event has been recorded the stream is ended with an empty store. -/
def StInv (s : SBState) : Prop :=
  s.emitting = false ∧ bmInv s.bm ∧
  (s.endEmitted = true → s.ended = true ∧ s.bm.totalLength = 0)

theorem emitChunks_endEmitted_inv (s : SBState) (f : Bool)
    (hem : s.emitting = false) (hcs : 0 < s.chunkSize) (hinv : bmInv s.bm)
    (hEE : s.endEmitted = true → s.ended = true ∧ s.bm.totalLength = 0) :
    (emitChunks s f).1.endEmitted = true
      → (emitChunks s f).1.ended = true ∧ (emitChunks s f).1.bm.totalLength = 0 := by
  obtain ⟨E1, E2, E3, E4, E5, E6, E7, E8, E9, E10, E11, E12, E13, E14, E15⟩ :=
    emitChunks_spec s f hem hcs hinv
  intro h
  rcases E8.mp h with h' | h'
  · obtain ⟨hEnd, hTot⟩ := hEE h'
    have hun : unconsumed s.bm = [] :=
      List.eq_nil_of_length_eq_zero (by rw [← hinv.2]; exact hTot)
    have hflat := E6
    rw [hun] at hflat
    have h2 : unconsumed (emitChunks s f).1.bm = [] := (List.append_eq_nil.mp hflat).2
    refine ⟨by rw [E4]; exact hEnd, ?_⟩
    rw [E1.2, h2]
    rfl
  · obtain ⟨-, hEnd, hTot⟩ := E9 h'
    exact ⟨by rw [E4]; exact hEnd, hTot⟩

theorem flushAfter_spec (t : SBState) (evs1 : List Ev)
    (hemT : t.emitting = false) (hcsT : 0 < t.chunkSize) (hinvT : bmInv t.bm)
    (hEmT : t.endEmitted = false)
    (hne1 : Ev.endEv ∉ evs1) (hnd1 : noDataAfterEnd evs1 = true) :
    StInv (emitChunks { t with ended := true } true).1 ∧
    (emitChunks { t with ended := true } true).1.chunkSize = t.chunkSize ∧
    (emitChunks { t with ended := true } true).1.ended = true ∧
    ((emitChunks { t with ended := true } true).1.endEmitted = true
      ↔ Ev.endEv ∈ evs1 ++ (emitChunks { t with ended := true } true).2) ∧
    countEnd (evs1 ++ (emitChunks { t with ended := true } true).2) ≤ 1 ∧
    noDataAfterEnd (evs1 ++ (emitChunks { t with ended := true } true).2) = true := by
  obtain ⟨E1, E2, E3, E4, E5, E6, E7, E8, E9, E10, E11, E12, E13, E14, E15⟩ :=
    emitChunks_spec { t with ended := true } true hemT hcsT hinvT
  have hEEr := emitChunks_endEmitted_inv { t with ended := true } true hemT hcsT hinvT
    (fun h => absurd (hEmT.symm.trans h) (by decide))
  refine ⟨⟨E2, E1, hEEr⟩, E3, E4, ?_, ?_, ?_⟩
  · constructor
    · intro h
      rcases E8.mp h with h' | h'
      · exact absurd (hEmT.symm.trans h') (by decide)
      · exact List.mem_append.mpr (Or.inr h')
    · intro h
      rcases List.mem_append.mp h with h' | h'
      · exact absurd h' hne1
      · exact E8.mpr (Or.inr h')
  · rw [countEnd_append, countEnd_eq_zero_of_not_mem evs1 hne1, Nat.zero_add]
    exact E10
  · rw [noDataAfterEnd_append_no_end evs1 _ hne1]
    exact E11

theorem step_spec (s : SBState) (op : Op) (hcs : 0 < s.chunkSize) (hI : StInv s) :
    StInv (step s op).1 ∧
    (step s op).1.chunkSize = s.chunkSize ∧
    (s.ended = true → (step s op).1.ended = true) ∧
    ((step s op).1.endEmitted = true ↔ (s.endEmitted = true ∨ Ev.endEv ∈ (step s op).2)) ∧
    countEnd (step s op).2 ≤ 1 ∧
    noDataAfterEnd (step s op).2 = true ∧
    (s.endEmitted = true → dataPayloads (step s op).2 = [] ∧ Ev.endEv ∉ (step s op).2) := by
  obtain ⟨hEm, hBm, hEEinv⟩ := hI
  cases op with
  | pause =>
    refine ⟨⟨hEm, hBm, hEEinv⟩, rfl, fun h => h, ?_, by show countEnd ([] : List Ev) ≤ 1; decide, rfl, fun _h => ⟨rfl, List.not_mem_nil _⟩⟩
    show s.endEmitted = true ↔ s.endEmitted = true ∨ Ev.endEv ∈ ([] : List Ev)
    simp
  | resume =>
    obtain ⟨E1, E2, E3, E4, E5, E6, E7, E8, E9, E10, E11, E12, E13, E14, E15⟩ :=
      emitChunks_spec { s with paused := false } false hEm hcs hBm
    have hEEr := emitChunks_endEmitted_inv { s with paused := false } false hEm hcs hBm hEEinv
    refine ⟨⟨E2, E1, hEEr⟩, E3, fun h => E4.trans h, E8, E10, E11, fun h => E12 h (hEEinv h).2⟩
  | flush =>
    obtain ⟨E1, E2, E3, E4, E5, E6, E7, E8, E9, E10, E11, E12, E13, E14, E15⟩ :=
      emitChunks_spec s true hEm hcs hBm
    have hEEr := emitChunks_endEmitted_inv s true hEm hcs hBm hEEinv
    refine ⟨⟨E2, E1, hEEr⟩, E3, fun h => E4.trans h, E8, E10, E11, fun h => E12 h (hEEinv h).2⟩
  | write b =>
    by_cases hend : s.ended = true
    · have hstep : step s (Op.write b) = (s, []) := by
        simp only [step]
        rw [write, if_pos hend]
      rw [hstep]
      refine ⟨⟨hEm, hBm, hEEinv⟩, rfl, fun h => h, by simp, by show countEnd ([] : List Ev) ≤ 1; decide, rfl,
        fun _h => ⟨rfl, List.not_mem_nil _⟩⟩
    · have hende : s.ended = false := by
        cases h : s.ended with
        | false => rfl
        | true => exact absurd h hend
      have hEmF : s.endEmitted = false := by
        cases h : s.endEmitted with
        | false => rfl
        | true => exact absurd ((hEEinv h).1.symm.trans hende) (by decide)
      by_cases hb : b.bytes.length ≠ 0
      · obtain ⟨a1, a2, a3⟩ := addBuffer_spec s.bm b hBm
        by_cases hth : ({ s with bm := addBuffer s.bm b } : SBState).chunkSize
            ≤ ((({ s with bm := addBuffer s.bm b } : SBState)).bm.totalLength : Int)
        · by_cases hpa : s.paused = true
          · have hstep : step s (Op.write b)
                = ({ s with bm := addBuffer s.bm b, needDrain := true }, ([] : List Ev)) := by
              simp only [step]
              rw [write, if_neg hend, if_pos hb, if_pos hth, if_pos (show
                ({ s with bm := addBuffer s.bm b } : SBState).paused = true from hpa)]
            rw [hstep]
            refine ⟨⟨hEm, a1, fun h => absurd (hEmF.symm.trans h) (by decide)⟩, rfl,
              fun h => h, by simp [hEmF], by show countEnd ([] : List Ev) ≤ 1; decide, rfl,
              fun _h => ⟨rfl, List.not_mem_nil _⟩⟩
          · have hstep : step s (Op.write b)
                = ((emitChunks { s with bm := addBuffer s.bm b } false).1,
                   (emitChunks { s with bm := addBuffer s.bm b } false).2) := by
              simp only [step]
              rw [write, if_neg hend, if_pos hb, if_pos hth, if_neg (show
                ¬ ({ s with bm := addBuffer s.bm b } : SBState).paused = true from hpa)]
            obtain ⟨E1, E2, E3, E4, E5, E6, E7, E8, E9, E10, E11, E12, E13, E14, E15⟩ :=
              emitChunks_spec { s with bm := addBuffer s.bm b } false hEm hcs a1
            have hEEr := emitChunks_endEmitted_inv { s with bm := addBuffer s.bm b } false
              hEm hcs a1 (fun h => absurd (hEmF.symm.trans h) (by decide))
            rw [hstep]
            refine ⟨⟨E2, E1, hEEr⟩, E3, fun h => absurd (hende.symm.trans h) (by decide),
              E8, E10, E11, fun h => absurd (hEmF.symm.trans h) (by decide)⟩
        · have hstep : step s (Op.write b)
              = ({ s with bm := addBuffer s.bm b }, ([] : List Ev)) := by
            simp only [step]
            rw [write, if_neg hend, if_pos hb, if_neg hth]
          rw [hstep]
          refine ⟨⟨hEm, a1, fun h => absurd (hEmF.symm.trans h) (by decide)⟩, rfl,
            fun h => h, by simp [hEmF], by show countEnd ([] : List Ev) ≤ 1; decide, rfl,
            fun _h => ⟨rfl, List.not_mem_nil _⟩⟩
      · by_cases hth : (s : SBState).chunkSize ≤ ((s.bm.totalLength : Int))
        · by_cases hpa : s.paused = true
          · have hstep : step s (Op.write b)
                = ({ s with needDrain := true }, ([] : List Ev)) := by
              simp only [step]
              rw [write, if_neg hend, if_neg hb, if_pos hth, if_pos hpa]
            rw [hstep]
            refine ⟨⟨hEm, hBm, fun h => absurd (hEmF.symm.trans h) (by decide)⟩, rfl,
              fun h => h, by simp [hEmF], by show countEnd ([] : List Ev) ≤ 1; decide, rfl,
              fun _h => ⟨rfl, List.not_mem_nil _⟩⟩
          · have hstep : step s (Op.write b)
                = ((emitChunks s false).1, (emitChunks s false).2) := by
              simp only [step]
              rw [write, if_neg hend, if_neg hb, if_pos hth, if_neg hpa]
            obtain ⟨E1, E2, E3, E4, E5, E6, E7, E8, E9, E10, E11, E12, E13, E14, E15⟩ :=
              emitChunks_spec s false hEm hcs hBm
            have hEEr := emitChunks_endEmitted_inv s false hEm hcs hBm
              (fun h => absurd (hEmF.symm.trans h) (by decide))
            rw [hstep]
            refine ⟨⟨E2, E1, hEEr⟩, E3, fun h => absurd (hende.symm.trans h) (by decide),
              E8, E10, E11, fun h => absurd (hEmF.symm.trans h) (by decide)⟩
        · have hstep : step s (Op.write b) = (s, ([] : List Ev)) := by
            simp only [step]
            rw [write, if_neg hend, if_neg hb, if_neg hth]
          rw [hstep]
          refine ⟨⟨hEm, hBm, fun h => absurd (hEmF.symm.trans h) (by decide)⟩, rfl,
            fun h => h, by simp [hEmF], by show countEnd ([] : List Ev) ≤ 1; decide, rfl,
            fun _h => ⟨rfl, List.not_mem_nil _⟩⟩
  | finish b =>
    cases b with
    | none =>
      obtain ⟨E1, E2, E3, E4, E5, E6, E7, E8, E9, E10, E11, E12, E13, E14, E15⟩ :=
        emitChunks_spec { s with ended := true } true hEm hcs hBm
      have hEEr := emitChunks_endEmitted_inv { s with ended := true } true hEm hcs hBm
        (fun h => ⟨rfl, (hEEinv h).2⟩)
      refine ⟨⟨E2, E1, hEEr⟩, E3, fun _h => E4, E8, E10, E11, fun h => E12 h (hEEinv h).2⟩
    | some c =>
      by_cases hend : s.ended = true
      · have hstep : step s (Op.finish (some c)) = (s, []) := by
          simp only [step, endOp]
          rw [write, if_pos hend]
        rw [hstep]
        refine ⟨⟨hEm, hBm, hEEinv⟩, rfl, fun h => h, by simp, by show countEnd ([] : List Ev) ≤ 1; decide, rfl,
          fun _h => ⟨rfl, List.not_mem_nil _⟩⟩
      · have hende : s.ended = false := by
          cases h : s.ended with
          | false => rfl
          | true => exact absurd h hend
        have hEmF : s.endEmitted = false := by
          cases h : s.endEmitted with
          | false => rfl
          | true => exact absurd ((hEEinv h).1.symm.trans hende) (by decide)
        by_cases hb : c.bytes.length ≠ 0
        · obtain ⟨a1, a2, a3⟩ := addBuffer_spec s.bm c hBm
          by_cases hth : ({ s with bm := addBuffer s.bm c } : SBState).chunkSize
              ≤ ((({ s with bm := addBuffer s.bm c } : SBState)).bm.totalLength : Int)
          · by_cases hpa : s.paused = true
            · have hstep : step s (Op.finish (some c))
                  = ((emitChunks { s with bm := addBuffer s.bm c, needDrain := true, ended := true } true).1,
                     ([] : List Ev) ++ (emitChunks { s with bm := addBuffer s.bm c, needDrain := true, ended := true } true).2) := by
                simp only [step, endOp]
                rw [write, if_neg hend, if_pos hb, if_pos hth, if_pos (show
                  ({ s with bm := addBuffer s.bm c } : SBState).paused = true from hpa)]
                rfl
              obtain ⟨G1, G2, G3, G4, G5, G6⟩ :=
                flushAfter_spec { s with bm := addBuffer s.bm c, needDrain := true }
                  ([] : List Ev) hEm hcs a1 hEmF (List.not_mem_nil _) rfl
              rw [hstep]
              refine ⟨G1, G2, fun _h => G3, ?_, G5, G6,
                fun h => absurd (hEmF.symm.trans h) (by decide)⟩
              constructor
              · intro h
                exact Or.inr (G4.mp h)
              · intro h
                rcases h with h' | h'
                · exact absurd (hEmF.symm.trans h') (by decide)
                · exact G4.mpr h'
            · have hstep : step s (Op.finish (some c))
                  = ((emitChunks { (emitChunks { s with bm := addBuffer s.bm c } false).1 with ended := true } true).1,
                     (emitChunks { s with bm := addBuffer s.bm c } false).2
                       ++ (emitChunks { (emitChunks { s with bm := addBuffer s.bm c } false).1 with ended := true } true).2) := by
                simp only [step, endOp]
                rw [write, if_neg hend, if_pos hb, if_pos hth, if_neg (show
                  ¬ ({ s with bm := addBuffer s.bm c } : SBState).paused = true from hpa)]
                rfl
              obtain ⟨F1, F2, F3, F4, F5, F6, F7, F8, F9, F10, F11, F12, F13, F14, F15⟩ :=
                emitChunks_spec { s with bm := addBuffer s.bm c } false hEm hcs a1
              have hendF : Ev.endEv ∉ (emitChunks { s with bm := addBuffer s.bm c } false).2 := by
                intro hmem
                obtain ⟨-, hEnd, -⟩ := F9 hmem
                exact absurd (hende.symm.trans hEnd) (by decide)
              have hEmB : (emitChunks { s with bm := addBuffer s.bm c } false).1.endEmitted
                  = false := by
                cases h : (emitChunks { s with bm := addBuffer s.bm c } false).1.endEmitted with
                | false => rfl
                | true =>
                  rcases F8.mp h with h' | h'
                  · exact absurd (hEmF.symm.trans h') (by decide)
                  · exact absurd h' hendF
              obtain ⟨G1, G2, G3, G4, G5, G6⟩ :=
                flushAfter_spec (emitChunks { s with bm := addBuffer s.bm c } false).1
                  (emitChunks { s with bm := addBuffer s.bm c } false).2
                  F2 (lt_of_lt_of_eq hcs F3.symm) F1 hEmB hendF F11
              rw [hstep]
              refine ⟨G1, G2.trans F3, fun _h => G3, ?_, G5, G6,
                fun h => absurd (hEmF.symm.trans h) (by decide)⟩
              constructor
              · intro h
                exact Or.inr (G4.mp h)
              · intro h
                rcases h with h' | h'
                · exact absurd (hEmF.symm.trans h') (by decide)
                · exact G4.mpr h'
          · have hstep : step s (Op.finish (some c))
                = ((emitChunks { s with bm := addBuffer s.bm c, ended := true } true).1,
                   ([] : List Ev) ++ (emitChunks { s with bm := addBuffer s.bm c, ended := true } true).2) := by
              simp only [step, endOp]
              rw [write, if_neg hend, if_pos hb, if_neg hth]
              rfl
            obtain ⟨G1, G2, G3, G4, G5, G6⟩ :=
              flushAfter_spec { s with bm := addBuffer s.bm c } ([] : List Ev)
                hEm hcs a1 hEmF (List.not_mem_nil _) rfl
            rw [hstep]
            refine ⟨G1, G2, fun _h => G3, ?_, G5, G6,
              fun h => absurd (hEmF.symm.trans h) (by decide)⟩
            constructor
            · intro h
              exact Or.inr (G4.mp h)
            · intro h
              rcases h with h' | h'
              · exact absurd (hEmF.symm.trans h') (by decide)
              · exact G4.mpr h'
        · by_cases hth : (s : SBState).chunkSize ≤ ((s.bm.totalLength : Int))
          · by_cases hpa : s.paused = true
            · have hstep : step s (Op.finish (some c))
                  = ((emitChunks { s with needDrain := true, ended := true } true).1,
                     ([] : List Ev) ++ (emitChunks { s with needDrain := true, ended := true } true).2) := by
                simp only [step, endOp]
                rw [write, if_neg hend, if_neg hb, if_pos hth, if_pos hpa]
                rfl
              obtain ⟨G1, G2, G3, G4, G5, G6⟩ :=
                flushAfter_spec { s with needDrain := true } ([] : List Ev)
                  hEm hcs hBm hEmF (List.not_mem_nil _) rfl
              rw [hstep]
              refine ⟨G1, G2, fun _h => G3, ?_, G5, G6,
                fun h => absurd (hEmF.symm.trans h) (by decide)⟩
              constructor
              · intro h
                exact Or.inr (G4.mp h)
              · intro h
                rcases h with h' | h'
                · exact absurd (hEmF.symm.trans h') (by decide)
                · exact G4.mpr h'
            · have hstep : step s (Op.finish (some c))
                  = ((emitChunks { (emitChunks s false).1 with ended := true } true).1,
                     (emitChunks s false).2
                       ++ (emitChunks { (emitChunks s false).1 with ended := true } true).2) := by
                simp only [step, endOp]
                rw [write, if_neg hend, if_neg hb, if_pos hth, if_neg hpa]
                rfl
              obtain ⟨F1, F2, F3, F4, F5, F6, F7, F8, F9, F10, F11, F12, F13, F14, F15⟩ :=
                emitChunks_spec s false hEm hcs hBm
              have hendF : Ev.endEv ∉ (emitChunks s false).2 := by
                intro hmem
                obtain ⟨-, hEnd, -⟩ := F9 hmem
                exact absurd (hende.symm.trans hEnd) (by decide)
              have hEmB : (emitChunks s false).1.endEmitted = false := by
                cases h : (emitChunks s false).1.endEmitted with
                | false => rfl
                | true =>
                  rcases F8.mp h with h' | h'
                  · exact absurd (hEmF.symm.trans h') (by decide)
                  · exact absurd h' hendF
              obtain ⟨G1, G2, G3, G4, G5, G6⟩ :=
                flushAfter_spec (emitChunks s false).1 (emitChunks s false).2
                  F2 (lt_of_lt_of_eq hcs F3.symm) F1 hEmB hendF F11
              rw [hstep]
              refine ⟨G1, G2.trans F3, fun _h => G3, ?_, G5, G6,
                fun h => absurd (hEmF.symm.trans h) (by decide)⟩
              constructor
              · intro h
                exact Or.inr (G4.mp h)
              · intro h
                rcases h with h' | h'
                · exact absurd (hEmF.symm.trans h') (by decide)
                · exact G4.mpr h'
          · have hstep : step s (Op.finish (some c))
                = ((emitChunks { s with ended := true } true).1,
                   ([] : List Ev) ++ (emitChunks { s with ended := true } true).2) := by
              simp only [step, endOp]
              rw [write, if_neg hend, if_neg hb, if_neg hth]
              rfl
            obtain ⟨G1, G2, G3, G4, G5, G6⟩ :=
              flushAfter_spec s ([] : List Ev) hEm hcs hBm hEmF (List.not_mem_nil _) rfl
            rw [hstep]
            refine ⟨G1, G2, fun _h => G3, ?_, G5, G6,
              fun h => absurd (hEmF.symm.trans h) (by decide)⟩
            constructor
            · intro h
              exact Or.inr (G4.mp h)
            · intro h
              rcases h with h' | h'
              · exact absurd (hEmF.symm.trans h') (by decide)
              · exact G4.mpr h'

theorem run_spec (ops : List Op) : ∀ (s : SBState), 0 < s.chunkSize → StInv s →
    StInv (run s ops).1 ∧
    (run s ops).1.chunkSize = s.chunkSize ∧
    ((run s ops).1.endEmitted = true ↔ (s.endEmitted = true ∨ Ev.endEv ∈ (run s ops).2)) ∧
    countEnd (run s ops).2 ≤ 1 ∧
    noDataAfterEnd (run s ops).2 = true ∧
    (s.endEmitted = true → dataPayloads (run s ops).2 = [] ∧ Ev.endEv ∉ (run s ops).2) := by
  induction ops with
  | nil =>
    intro s _hcs hI
    exact ⟨hI, rfl,
      by show s.endEmitted = true ↔ s.endEmitted = true ∨ Ev.endEv ∈ ([] : List Ev); simp,
      by show countEnd ([] : List Ev) ≤ 1; decide, rfl,
      fun _h => ⟨rfl, List.not_mem_nil _⟩⟩
  | cons op ops ih =>
    intro s hcs hI
    obtain ⟨S1, S2, S3, S4, S5, S6, S7⟩ := step_spec s op hcs hI
    obtain ⟨R1, R2, R3, R4, R5, R6⟩ :=
      ih (step s op).1 (by rw [S2]; exact hcs) S1
    refine ⟨R1, R2.trans S2, ?_, ?_, ?_, ?_⟩
    · show (run (step s op).1 ops).1.endEmitted = true
        ↔ s.endEmitted = true ∨ Ev.endEv ∈ (step s op).2 ++ (run (step s op).1 ops).2
      rw [R3, S4, List.mem_append]
      exact or_assoc
    · show countEnd ((step s op).2 ++ (run (step s op).1 ops).2) ≤ 1
      rw [countEnd_append]
      by_cases hmem : Ev.endEv ∈ (step s op).2
      · have hEE1 : (step s op).1.endEmitted = true := S4.mpr (Or.inr hmem)
        have hq0 : countEnd (run (step s op).1 ops).2 = 0 :=
          countEnd_eq_zero_of_not_mem _ (R6 hEE1).2
        omega
      · have hp0 : countEnd (step s op).2 = 0 := countEnd_eq_zero_of_not_mem _ hmem
        omega
    · show noDataAfterEnd ((step s op).2 ++ (run (step s op).1 ops).2) = true
      by_cases hmem : Ev.endEv ∈ (step s op).2
      · have hEE1 : (step s op).1.endEmitted = true := S4.mpr (Or.inr hmem)
        exact noDataAfterEnd_append_of_no_data _ _ S6
          (hasData_eq_false_of_dataPayloads_nil _ (R6 hEE1).1) R5
      · rw [noDataAfterEnd_append_no_end _ _ hmem]
        exact R5
    · intro h
      have hEE1 : (step s op).1.endEmitted = true := S4.mpr (Or.inl h)
      refine ⟨?_, ?_⟩
      · show dataPayloads ((step s op).2 ++ (run (step s op).1 ops).2) = []
        rw [dataPayloads_append, (S7 h).1, (R6 hEE1).1]
        rfl
      · show Ev.endEv ∉ (step s op).2 ++ (run (step s op).1 ops).2
        intro hmem
        rcases List.mem_append.mp hmem with h' | h'
        · exact absurd h' (S7 h).2
        · exact absurd h' (R6 hEE1).2

/-- C9 counterexample: pausing and then ending the stream is an execution
in which the terminal event never fires — the stream has ended with an
empty Byte Store, yet the trace holds zero end events, refuting the
"fires exactly once for every execution" reading. -/
theorem c9_counterexample :
    (run (mkStreamState 4) [Op.pause, Op.finish none]).1.ended = true ∧
    (run (mkStreamState 4) [Op.pause, Op.finish none]).1.bm.totalLength = 0 ∧
    (run (mkStreamState 4) [Op.pause, Op.finish none]).1.endEmitted = false ∧
    countEnd (run (mkStreamState 4) [Op.pause, Op.finish none]).2 = 0 := by
  decide

/-- C9 amended.  Terminal event ordering over every execution of a
freshly constructed Stream-variant instance with a positive chunk size:
the end event fires at MOST once (not exactly once: a paused end() fires
nothing, see the counterexample); no data event ever follows it in the
trace; it is recorded in `endEmitted` exactly when it fired; when it fired
the stream is ended with an empty Byte Store; and from any final state
that is not paused and has not yet emitted it, a further end() call does
fire it. -/
theorem c9_terminal_ordering (size : Int) (ops : List Op) (hcs : 0 < size) :
    countEnd (run (mkStreamState size) ops).2 ≤ 1 ∧
    noDataAfterEnd (run (mkStreamState size) ops).2 = true ∧
    ((run (mkStreamState size) ops).1.endEmitted = true
      ↔ Ev.endEv ∈ (run (mkStreamState size) ops).2) ∧
    (Ev.endEv ∈ (run (mkStreamState size) ops).2
      → (run (mkStreamState size) ops).1.ended = true
        ∧ (run (mkStreamState size) ops).1.bm.totalLength = 0) ∧
    ((run (mkStreamState size) ops).1.paused = false
      → (run (mkStreamState size) ops).1.endEmitted = false
      → Ev.endEv ∈ (step (run (mkStreamState size) ops).1 (Op.finish none)).2) := by
  have hI : StInv (mkStreamState size) :=
    ⟨rfl, bmInv_init, fun h => Bool.noConfusion h⟩
  obtain ⟨R1, R2, R3, R4, R5, R6⟩ := run_spec ops (mkStreamState size) hcs hI
  refine ⟨R4, R5, ?_, ?_, ?_⟩
  · constructor
    · intro h
      exact (R3.mp h).resolve_left (fun h' => Bool.noConfusion h')
    · intro h
      exact R3.mpr (Or.inr h)
  · intro h
    exact R1.2.2 (R3.mpr (Or.inr h))
  · intro hpf hEEf
    obtain ⟨E1, E2, E3, E4, E5, E6, E7, E8, E9, E10, E11, E12, E13, E14, E15⟩ :=
      emitChunks_spec { (run (mkStreamState size) ops).1 with ended := true } true R1.1
        (lt_of_lt_of_eq hcs R2.symm) R1.2.1
    exact E15 hpf rfl hEEf rfl

/-- Witness for c9_terminal_ordering: chunk size 4, one three-byte write
followed by end(). -/
theorem c9_terminal_ordering_witness :
    0 < (4 : Int) ∧
    (countEnd (run (mkStreamState 4) [Op.write ⟨some 0, [1, 2, 3]⟩, Op.finish none]).2 ≤ 1 ∧
     noDataAfterEnd (run (mkStreamState 4) [Op.write ⟨some 0, [1, 2, 3]⟩, Op.finish none]).2
       = true ∧
     ((run (mkStreamState 4) [Op.write ⟨some 0, [1, 2, 3]⟩, Op.finish none]).1.endEmitted = true
       ↔ Ev.endEv ∈ (run (mkStreamState 4) [Op.write ⟨some 0, [1, 2, 3]⟩, Op.finish none]).2) ∧
     (Ev.endEv ∈ (run (mkStreamState 4) [Op.write ⟨some 0, [1, 2, 3]⟩, Op.finish none]).2
       → (run (mkStreamState 4) [Op.write ⟨some 0, [1, 2, 3]⟩, Op.finish none]).1.ended = true
         ∧ (run (mkStreamState 4) [Op.write ⟨some 0, [1, 2, 3]⟩,
             Op.finish none]).1.bm.totalLength = 0) ∧
     ((run (mkStreamState 4) [Op.write ⟨some 0, [1, 2, 3]⟩, Op.finish none]).1.paused = false
       → (run (mkStreamState 4) [Op.write ⟨some 0, [1, 2, 3]⟩,
            Op.finish none]).1.endEmitted = false
       → Ev.endEv ∈ (step (run (mkStreamState 4) [Op.write ⟨some 0, [1, 2, 3]⟩,
            Op.finish none]).1 (Op.finish none)).2)) :=
  ⟨by decide, c9_terminal_ordering 4 [Op.write ⟨some 0, [1, 2, 3]⟩, Op.finish none] (by decide)⟩

/-! ## A heap model of the Transform variant, for the aliasing claim.

Buffers are heap cells addressed by index; `_buffer` is the cell at the
`scratch` address, written in place by the copy loop, and `_emitBlock`'s
`Buffer.from(block)` allocates a new cell holding a copy of the scratch
bytes whose address — never the scratch address — is what `push`/`onBlock`
receive. -/

/-- Read of one allocated buffer; an unallocated address reads as empty. -/
def heapRead (h : List (List Nat)) (a : Nat) : List Nat := h.getD a []

/-- In-place update of one allocated buffer. -/
def heapWrite (h : List (List Nat)) (a : Nat) (v : List Nat) : List (List Nat) :=
  h.set a v

/-- Instance state of the Transform variant with buffer identities kept:
the heap of live buffers, the address of the scratch buffer `_buffer`, the
cursor `_position`, and the addresses handed downstream, in emission
order. -/
structure HState where
  heap : List (List Nat)
  scratch : Nat
  position : Nat
  out : List Nat

/-- A freshly constructed instance: one allocated buffer (the scratch) and
nothing emitted. -/
def hInit (b0 : List Nat) : HState := ⟨[b0], 0, 0, []⟩

/-- `_emitBlock`: `Buffer.from(block)` allocates a NEW cell with a copy of
the scratch bytes; its fresh address is recorded as emitted. -/
def emitBlockH (s : HState) : HState :=
  { s with heap := s.heap ++ [heapRead s.heap s.scratch], out := s.out ++ [s.heap.length] }

/-- The `_processChunk` loop over the heap: bytes are copied into the
scratch cell in place; a full scratch is emitted via `emitBlockH` and the
cursor reset. -/
def processChunkHGo (blockSize : Nat) (s : HState) (input : List Nat) : Nat → HState
  | 0 => s
  | fuel + 1 =>
    if input.isEmpty then s
    else
      let bytesToCopy := min (blockSize - s.position) input.length
      let buffer' := bufWrite (heapRead s.heap s.scratch) s.position (input.take bytesToCopy)
      let s1 : HState := { s with heap := heapWrite s.heap s.scratch buffer', position := s.position + bytesToCopy }
      if s.position + bytesToCopy = blockSize then
        processChunkHGo blockSize { emitBlockH s1 with position := 0 } (input.drop bytesToCopy) fuel
      else
        processChunkHGo blockSize s1 (input.drop bytesToCopy) fuel

/-- One `_transform` call in the heap model. -/
def processChunkH (blockSize : Nat) (s : HState) (input : List Nat) : HState :=
  processChunkHGo blockSize s input input.length

/-- A sequence of `_transform` calls in the heap model. -/
def runWritesH (blockSize : Nat) (s : HState) : List (List Nat) → HState
  | [] => s
  | w :: ws => runWritesH blockSize (processChunkH blockSize s w) ws

/-- Heap well-formedness: the scratch address is allocated and every
emitted address is allocated and distinct from the scratch address. -/
def hWF (s : HState) : Prop :=
  s.scratch < s.heap.length ∧ ∀ a ∈ s.out, a ≠ s.scratch ∧ a < s.heap.length

theorem heapRead_heapWrite_ne (h : List (List Nat)) (i j : Nat) (v : List Nat)
    (hij : j ≠ i) : heapRead (heapWrite h i v) j = heapRead h j := by
  unfold heapRead heapWrite
  rw [List.getD_eq_getElem?_getD, List.getD_eq_getElem?_getD,
    List.getElem?_set_ne (Ne.symm hij)]

theorem heapRead_heapWrite_self (h : List (List Nat)) (i : Nat) (v : List Nat)
    (hi : i < h.length) : heapRead (heapWrite h i v) i = v := by
  unfold heapRead heapWrite
  rw [List.getD_eq_getElem?_getD, List.getElem?_set_self hi]
  rfl

theorem heapRead_append_left (h h2 : List (List Nat)) (a : Nat) (ha : a < h.length) :
    heapRead (h ++ h2) a = heapRead h a := by
  unfold heapRead
  rw [List.getD_eq_getElem?_getD, List.getD_eq_getElem?_getD, List.getElem?_append_left ha]

theorem heapRead_append_self (h : List (List Nat)) (v : List Nat) :
    heapRead (h ++ [v]) h.length = v := by
  unfold heapRead
  rw [List.getD_eq_getElem?_getD, List.getElem?_append_right (Nat.le_refl _), Nat.sub_self]
  rfl

theorem processChunkHGo_nil (blockSize : Nat) (s : HState) (fuel : Nat) :
    processChunkHGo blockSize s [] fuel = s := by
  cases fuel <;> simp [processChunkHGo]

theorem emit_reset_facts (s1 : HState) :
    ({ emitBlockH s1 with position := 0 } : HState).scratch = s1.scratch ∧
    ({ emitBlockH s1 with position := 0 } : HState).position = 0 ∧
    ({ emitBlockH s1 with position := 0 } : HState).out = s1.out ++ [s1.heap.length] ∧
    ({ emitBlockH s1 with position := 0 } : HState).heap
      = s1.heap ++ [heapRead s1.heap s1.scratch] :=
  ⟨rfl, rfl, rfl, rfl⟩

theorem hWF_emit_reset (s1 : HState) (h : hWF s1) :
    hWF ({ emitBlockH s1 with position := 0 } : HState) := by
  obtain ⟨hsc, hout⟩ := h
  obtain ⟨e2scr, e2pos, e2out, e2heap⟩ := emit_reset_facts s1
  refine ⟨?_, ?_⟩
  · rw [e2scr, e2heap]
    simp only [List.length_append, List.length_singleton]
    omega
  · intro a ha
    rw [e2out] at ha
    rw [e2scr, e2heap]
    simp only [List.length_append, List.length_singleton]
    rcases List.mem_append.mp ha with h1 | h1
    · obtain ⟨hne, hlt⟩ := hout a h1
      exact ⟨hne, by omega⟩
    · rw [List.mem_singleton] at h1
      subst h1
      exact ⟨by omega, by omega⟩

theorem heapRead_emit_reset (s1 : HState) (a : Nat) (ha : a < s1.heap.length) :
    heapRead ({ emitBlockH s1 with position := 0 } : HState).heap a = heapRead s1.heap a := by
  obtain ⟨-, -, -, e2heap⟩ := emit_reset_facts s1
  rw [e2heap]
  exact heapRead_append_left _ _ a ha

/-- Frame property of the copy loop: the scratch address is stable, the
heap only grows, well-formedness is preserved, and the contents of every
allocated non-scratch cell — in particular every previously emitted
block — are untouched. -/
theorem processChunkHGo_frame (blockSize : Nat) (fuel : Nat) :
    ∀ (s : HState) (input : List Nat), hWF s →
    (processChunkHGo blockSize s input fuel).scratch = s.scratch ∧
    s.heap.length ≤ (processChunkHGo blockSize s input fuel).heap.length ∧
    hWF (processChunkHGo blockSize s input fuel) ∧
    (∀ a, a ≠ s.scratch → a < s.heap.length →
      heapRead (processChunkHGo blockSize s input fuel).heap a = heapRead s.heap a) := by
  induction fuel with
  | zero =>
    intro s input hwf
    exact ⟨rfl, Nat.le_refl _, hwf, fun a _ _ => rfl⟩
  | succ fuel ih =>
    intro s input hwf
    obtain ⟨hsc, hout⟩ := hwf
    by_cases hin : input = []
    · subst hin
      rw [processChunkHGo_nil]
      exact ⟨rfl, Nat.le_refl _, ⟨hsc, hout⟩, fun a _ _ => rfl⟩
    · set k := min (blockSize - s.position) input.length with hk
      set buffer' := bufWrite (heapRead s.heap s.scratch) s.position (input.take k) with hb'
      set s1 : HState := { s with heap := heapWrite s.heap s.scratch buffer', position := s.position + k } with hs1
      have hunfold : processChunkHGo blockSize s input (fuel + 1)
          = if s.position + k = blockSize then
              processChunkHGo blockSize { emitBlockH s1 with position := 0 } (input.drop k) fuel
            else processChunkHGo blockSize s1 (input.drop k) fuel := by
        rw [processChunkHGo]
        rw [if_neg (by simp [hin])]
      have hlen1 : s1.heap.length = s.heap.length := by
        rw [hs1]
        simp [heapWrite]
      have hscr1 : s1.scratch = s.scratch := by rw [hs1]
      have hout1 : s1.out = s.out := by rw [hs1]
      have hread1 : ∀ a, a ≠ s.scratch → heapRead s1.heap a = heapRead s.heap a := by
        intro a hne
        rw [hs1]
        exact heapRead_heapWrite_ne s.heap s.scratch a buffer' hne
      have hwf1 : hWF s1 := by
        refine ⟨?_, ?_⟩
        · rw [hscr1, hlen1]
          exact hsc
        · intro a ha
          rw [hout1] at ha
          obtain ⟨h1, h2⟩ := hout a ha
          rw [hscr1, hlen1]
          exact ⟨h1, h2⟩
      by_cases heq : s.position + k = blockSize
      · rw [hunfold, if_pos heq]
        have hwf2 := hWF_emit_reset s1 hwf1
        obtain ⟨e2scr, e2pos, e2out, e2heap⟩ := emit_reset_facts s1
        have hlen2 : ({ emitBlockH s1 with position := 0 } : HState).heap.length
            = s.heap.length + 1 := by
          rw [e2heap, List.length_append, List.length_singleton, hlen1]
        obtain ⟨I1, I2, I3, I4⟩ := ih { emitBlockH s1 with position := 0 } (input.drop k) hwf2
        refine ⟨I1.trans (e2scr.trans hscr1), ?_, I3, ?_⟩
        · exact le_trans (by rw [hlen2]; omega) I2
        · intro a hne hlt
          have hne2 : a ≠ ({ emitBlockH s1 with position := 0 } : HState).scratch := by
            rw [e2scr, hscr1]
            exact hne
          rw [I4 a hne2 (by rw [hlen2]; omega)]
          rw [heapRead_emit_reset s1 a (by rw [hlen1]; exact hlt)]
          exact hread1 a hne
      · rw [hunfold, if_neg heq]
        obtain ⟨I1, I2, I3, I4⟩ := ih s1 (input.drop k) hwf1
        refine ⟨I1.trans hscr1, ?_, I3, ?_⟩
        · exact le_trans (le_of_eq hlen1.symm) I2
        · intro a hne hlt
          rw [I4 a (by rw [hscr1]; exact hne) (by rw [hlen1]; exact hlt)]
          exact hread1 a hne

/-- Simulation of the heap loop by the pure loop: the scratch cell holds
the pure model's scratch bytes, the cursor agrees, and reading the emitted
addresses through the final heap yields exactly the pure model's emitted
blocks, in order. -/
theorem processChunkHGo_sim (blockSize : Nat) (fuel : Nat) :
    ∀ (s : HState) (input : List Nat), hWF s →
    heapRead (processChunkHGo blockSize s input fuel).heap s.scratch
      = (processChunkGo blockSize (heapRead s.heap s.scratch) s.position input fuel).1 ∧
    (processChunkHGo blockSize s input fuel).position
      = (processChunkGo blockSize (heapRead s.heap s.scratch) s.position input fuel).2.1 ∧
    (processChunkHGo blockSize s input fuel).out.map
        (heapRead (processChunkHGo blockSize s input fuel).heap)
      = s.out.map (heapRead s.heap)
        ++ (processChunkGo blockSize (heapRead s.heap s.scratch) s.position input fuel).2.2 := by
  induction fuel with
  | zero =>
    intro s input hwf
    refine ⟨rfl, rfl, ?_⟩
    show s.out.map (heapRead s.heap) = s.out.map (heapRead s.heap) ++ ([] : List (List Nat))
    rw [List.append_nil]
  | succ fuel ih =>
    intro s input hwf
    obtain ⟨hsc, hout⟩ := hwf
    by_cases hin : input = []
    · subst hin
      rw [processChunkHGo_nil, processChunkGo_nil]
      refine ⟨rfl, rfl, ?_⟩
      show s.out.map (heapRead s.heap) = s.out.map (heapRead s.heap) ++ ([] : List (List Nat))
      rw [List.append_nil]
    · set k := min (blockSize - s.position) input.length with hk
      set buffer' := bufWrite (heapRead s.heap s.scratch) s.position (input.take k) with hb'
      set s1 : HState := { s with heap := heapWrite s.heap s.scratch buffer', position := s.position + k } with hs1
      have hunfoldH : processChunkHGo blockSize s input (fuel + 1)
          = if s.position + k = blockSize then
              processChunkHGo blockSize { emitBlockH s1 with position := 0 } (input.drop k) fuel
            else processChunkHGo blockSize s1 (input.drop k) fuel := by
        rw [processChunkHGo]
        rw [if_neg (by simp [hin])]
      have hunfoldP : processChunkGo blockSize (heapRead s.heap s.scratch) s.position input
            (fuel + 1)
          = if s.position + k = blockSize then
              ((processChunkGo blockSize buffer' 0 (input.drop k) fuel).1,
               (processChunkGo blockSize buffer' 0 (input.drop k) fuel).2.1,
               buffer' :: (processChunkGo blockSize buffer' 0 (input.drop k) fuel).2.2)
            else processChunkGo blockSize buffer' (s.position + k) (input.drop k) fuel := by
        rw [processChunkGo]
        rw [if_neg (by simp [hin])]
      have hlen1 : s1.heap.length = s.heap.length := by
        rw [hs1]
        simp [heapWrite]
      have hscr1 : s1.scratch = s.scratch := by rw [hs1]
      have hpos1 : s1.position = s.position + k := by rw [hs1]
      have hout1 : s1.out = s.out := by rw [hs1]
      have hread1 : ∀ a, a ≠ s.scratch → heapRead s1.heap a = heapRead s.heap a := by
        intro a hne
        rw [hs1]
        exact heapRead_heapWrite_ne s.heap s.scratch a buffer' hne
      have hbuf1 : heapRead s1.heap s.scratch = buffer' := by
        rw [hs1]
        exact heapRead_heapWrite_self s.heap s.scratch buffer' hsc
      have hwf1 : hWF s1 := by
        refine ⟨?_, ?_⟩
        · rw [hscr1, hlen1]
          exact hsc
        · intro a ha
          rw [hout1] at ha
          obtain ⟨h1, h2⟩ := hout a ha
          rw [hscr1, hlen1]
          exact ⟨h1, h2⟩
      by_cases heq : s.position + k = blockSize
      · rw [hunfoldH, if_pos heq, hunfoldP, if_pos heq]
        have hwf2 := hWF_emit_reset s1 hwf1
        obtain ⟨e2scr, e2pos, e2out, e2heap⟩ := emit_reset_facts s1
        have hscr2 : heapRead ({ emitBlockH s1 with position := 0 } : HState).heap
            ({ emitBlockH s1 with position := 0 } : HState).scratch = buffer' := by
          rw [e2scr, e2heap, heapRead_append_left _ _ s1.scratch (by rw [hscr1, hlen1]; exact hsc)]
          rw [hscr1]
          exact hbuf1
        obtain ⟨I1, I2, I3⟩ := ih { emitBlockH s1 with position := 0 } (input.drop k) hwf2
        rw [hscr2, e2pos] at I1 I2 I3
        rw [e2scr, hscr1] at I1
        have hmap2 : ({ emitBlockH s1 with position := 0 } : HState).out.map
              (heapRead ({ emitBlockH s1 with position := 0 } : HState).heap)
            = s.out.map (heapRead s.heap) ++ [buffer'] := by
          rw [e2out, List.map_append, hout1]
          congr 1
          · apply List.map_congr_left
            intro a ha
            obtain ⟨hne, hlt⟩ := hout a ha
            rw [heapRead_emit_reset s1 a (by rw [hlen1]; exact hlt)]
            exact hread1 a hne
          · show [heapRead ({ emitBlockH s1 with position := 0 } : HState).heap s1.heap.length]
              = [buffer']
            rw [e2heap, heapRead_append_self, hscr1, hbuf1]
        rw [hmap2] at I3
        rw [List.append_assoc] at I3
        exact ⟨I1, I2, I3⟩
      · rw [hunfoldH, if_neg heq, hunfoldP, if_neg heq]
        obtain ⟨I1, I2, I3⟩ := ih s1 (input.drop k) hwf1
        rw [hscr1, hbuf1, hpos1] at I1 I2 I3
        have hmap1 : s1.out.map (heapRead s1.heap) = s.out.map (heapRead s.heap) := by
          rw [hout1]
          apply List.map_congr_left
          intro a ha
          exact hread1 a (hout a ha).1
        rw [hmap1] at I3
        exact ⟨I1, I2, I3⟩

theorem processChunkH_spec (blockSize : Nat) (s : HState) (input : List Nat) (hwf : hWF s) :
    (processChunkH blockSize s input).scratch = s.scratch ∧
    s.heap.length ≤ (processChunkH blockSize s input).heap.length ∧
    hWF (processChunkH blockSize s input) ∧
    (∀ a, a ≠ s.scratch → a < s.heap.length →
      heapRead (processChunkH blockSize s input).heap a = heapRead s.heap a) ∧
    heapRead (processChunkH blockSize s input).heap s.scratch
      = (processChunkGo blockSize (heapRead s.heap s.scratch) s.position input input.length).1 ∧
    (processChunkH blockSize s input).position
      = (processChunkGo blockSize (heapRead s.heap s.scratch) s.position input
          input.length).2.1 ∧
    (processChunkH blockSize s input).out.map (heapRead (processChunkH blockSize s input).heap)
      = s.out.map (heapRead s.heap)
        ++ (processChunkGo blockSize (heapRead s.heap s.scratch) s.position input
            input.length).2.2 := by
  obtain ⟨F1, F2, F3, F4⟩ := processChunkHGo_frame blockSize input.length s input hwf
  obtain ⟨S1, S2, S3⟩ := processChunkHGo_sim blockSize input.length s input hwf
  exact ⟨F1, F2, F3, F4, S1, S2, S3⟩

theorem runWritesH_spec (blockSize : Nat) (ep : Bool) (pad : Nat ⊕ List Nat)
    (ws : List (List Nat)) : ∀ (s : HState), hWF s →
    (runWritesH blockSize s ws).scratch = s.scratch ∧
    s.heap.length ≤ (runWritesH blockSize s ws).heap.length ∧
    hWF (runWritesH blockSize s ws) ∧
    (∀ a, a ≠ s.scratch → a < s.heap.length →
      heapRead (runWritesH blockSize s ws).heap a = heapRead s.heap a) ∧
    heapRead (runWritesH blockSize s ws).heap s.scratch
      = (runWrites ⟨⟨blockSize, ep, pad⟩, heapRead s.heap s.scratch, s.position⟩ ws).1.buffer ∧
    (runWritesH blockSize s ws).position
      = (runWrites ⟨⟨blockSize, ep, pad⟩, heapRead s.heap s.scratch, s.position⟩
          ws).1.position ∧
    (runWritesH blockSize s ws).out.map (heapRead (runWritesH blockSize s ws).heap)
      = s.out.map (heapRead s.heap)
        ++ (runWrites ⟨⟨blockSize, ep, pad⟩, heapRead s.heap s.scratch, s.position⟩ ws).2 := by
  induction ws with
  | nil =>
    intro s hwf
    refine ⟨rfl, Nat.le_refl _, hwf, fun a _ _ => rfl, rfl, rfl, ?_⟩
    show s.out.map (heapRead s.heap) = s.out.map (heapRead s.heap) ++ ([] : List (List Nat))
    rw [List.append_nil]
  | cons w ws ihW =>
    intro s hwf
    obtain ⟨P1, P2, P3, P4, P5, P6, P7⟩ := processChunkH_spec blockSize s w hwf
    obtain ⟨R1, R2, R3, R4, R5, R6, R7⟩ := ihW (processChunkH blockSize s w) P3
    rw [P1] at R4 R5 R6 R7
    rw [P5, P6] at R5 R6 R7
    refine ⟨R1.trans P1, le_trans P2 R2, R3, ?_, ?_, ?_, ?_⟩
    · intro a hne hlt
      show heapRead (runWritesH blockSize (processChunkH blockSize s w) ws).heap a
        = heapRead s.heap a
      rw [R4 a hne (lt_of_lt_of_le hlt P2)]
      exact P4 a hne hlt
    · exact R5
    · exact R6
    · rw [P7, List.append_assoc] at R7
      exact R7

theorem hWF_hInit (b0 : List Nat) : hWF (hInit b0) := by
  refine ⟨Nat.one_pos, ?_⟩
  intro a ha
  exact absurd ha (List.not_mem_nil _)

/-- C10.  Freshness and frame property of the Transform-variant emission
path: after any sequence of writes from a fresh instance, every address
handed downstream differs from the scratch buffer's address (each emitted
block is a separate allocation made by `Buffer.from`, never an alias of
`_buffer`); any further writes leave the bytes of every previously
emitted block unchanged; and reading the emitted addresses through the
heap yields exactly the blocks of the pure byte-level model, in emission
order. -/
theorem c10_fresh_blocks (blockSize : Nat) (ep : Bool) (pad : Nat ⊕ List Nat)
    (b0 : List Nat) (ws more : List (List Nat)) :
    (∀ a ∈ (runWritesH blockSize (hInit b0) ws).out,
      a ≠ (runWritesH blockSize (hInit b0) ws).scratch) ∧
    (∀ a ∈ (runWritesH blockSize (hInit b0) ws).out,
      heapRead (runWritesH blockSize (runWritesH blockSize (hInit b0) ws) more).heap a
        = heapRead (runWritesH blockSize (hInit b0) ws).heap a) ∧
    (runWritesH blockSize (hInit b0) ws).out.map
        (heapRead (runWritesH blockSize (hInit b0) ws).heap)
      = (runWrites ⟨⟨blockSize, ep, pad⟩, b0, 0⟩ ws).2 := by
  obtain ⟨W1, W2, W3, W4, W5, W6, W7⟩ :=
    runWritesH_spec blockSize ep pad ws (hInit b0) (hWF_hInit b0)
  obtain ⟨M1, M2, M3, M4, M5, M6, M7⟩ :=
    runWritesH_spec blockSize ep pad more (runWritesH blockSize (hInit b0) ws) W3
  refine ⟨?_, ?_, ?_⟩
  · intro a ha
    exact (W3.2 a ha).1
  · intro a ha
    obtain ⟨hne, hlt⟩ := W3.2 a ha
    exact M4 a hne hlt
  · exact W7

end StreamBlockify
